import Mathlib

/-!
Verification development for the StormiDB document store (Azure-blob backed).

The definitions below are a shallow embedding, translated from the JavaScript
source:
  - src/storage/tagEncoding.js       (encodeTagValue / decodeTagValue)
  - src/query/QueryParser.js         (Operator, parseQuery, evaluateCondition;
    the engine's active variant is the one that exports evaluateCondition,
    handles BETWEEN and normalizes ISO-8601 date strings; an alternative
    variant of parseQuery that collects a list of conditions per field is
    embedded separately as parseQueryList)
  - src/storage/AzureBlobStorage.js  (create/read/update/delete, the index
    blobs, checkUniqueConstraints, updateIndexes, lookupIndexIds, find)

Modelling conventions:
  - JavaScript primitive field values are modelled by `JSPrim` (strings and
    integral numbers; the sources store and compare strings and numbers).
  - JavaScript objects (documents, index maps, query objects) are modelled by
    association lists in insertion order, which is the enumeration order of
    string-keyed properties in JavaScript.
  - Machine numbers are modelled by `Int` (the scenarios proved here stay in
    the safe-integer range where JavaScript number semantics agree with the
    integers, and `Number.prototype.toString` prints plain decimal).
  - Strings are Lean strings; JavaScript compares strings by UTF-16 code
    unit, which agrees with code-point order on the basic multilingual plane,
    the range used throughout.
  - Asynchronous I/O is sequentialized: each public operation is a function
    from a `Store` to a `Store` plus an `Except` result.  Conditional-write
    (entity-tag) retries never fire in the single-writer model, so the retry
    loops collapse to their first iteration.
  - The legacy date-granularity index type is excluded from the model (the
    specification's §9 explicitly excludes date bucketing from the canonical
    design); only `default` and `compound` index blobs are represented.
  - `hashTagValue` (SHA-256) is not modelled; no claim depends on it.
-/

/-- JavaScript primitive values as stored in documents: strings and
(safe-range integral) numbers. -/
inductive JSPrim where
  | str (s : String)
  | num (n : Int)
deriving DecidableEq, Repr

/-- Runtime values occurring during condition evaluation, including the
results of failed conversions (`nan`), missing properties (`undefVal`),
arrays, and opaque objects. -/
inductive JsVal where
  | str (s : String)
  | num (n : Int)
  | nan
  | undefVal
  | arrv (xs : List JsVal)
  | objv

/-- A condition value as produced by parseQuery: a primitive, an array of
primitives (for IN / NIN / BETWEEN), or an opaque object (the fallback when
an operator object contains no recognized operator; its properties never
influence evaluation, since strict equality with a distinct object is
false). -/
inductive CondVal where
  | prim (p : JSPrim)
  | arr (xs : List JSPrim)
  | objq
deriving DecidableEq, Repr

/-- A document: a string-keyed JavaScript object in property insertion
order. -/
abbrev Doc := List (String × JSPrim)

/-- Association-list lookup: the value of the first binding of a key, the
model of JavaScript property access `o[k]`. -/
def alookup {α : Type} : List (String × α) → String → Option α
  | [], _ => none
  | (k, v) :: rest, key => if k = key then some v else alookup rest key

/-- Association-list assignment `o[k] = v`: replace the first binding in
place (JavaScript keeps the original insertion position) or append. -/
def aset {α : Type} : List (String × α) → String → α → List (String × α)
  | [], key, v => [(key, v)]
  | (k, w) :: rest, key, v =>
    if k = key then (k, v) :: rest else (k, w) :: aset rest key v

/-- Association-list removal, the model of `delete o[k]`. -/
def aremove {α : Type} : List (String × α) → String → List (String × α)
  | [], _ => []
  | (k, w) :: rest, key =>
    if k = key then rest else (k, w) :: aremove rest key

/-- The character set matched by the JavaScript regular-expression class
`\s`: whitespace and line terminators. -/
def jsWsChars : List Char :=
  ['\t', '\n', '\x0B', '\x0C', '\r', ' ', ' ', ' ',
   ' ', ' ', ' ', ' ', ' ', ' ',
   ' ', ' ', ' ', ' ', ' ', ' ',
   ' ', ' ', ' ', '　', '﻿']

/-- Whether a character is JavaScript whitespace (`\s`). -/
def jsWhitespace (c : Char) : Bool := jsWsChars.contains c

/-- JavaScript line terminators (not matched by `.` in a regular
expression without the `s` flag). -/
def jsLineTerm (c : Char) : Bool :=
  c == '\n' || c == '\r' || c == ' ' || c == ' '

/-- ASCII lowercase letter test. -/
def isAsciiLower (c : Char) : Bool := 97 ≤ c.toNat && c.toNat ≤ 122

/-- ASCII uppercase letter test. -/
def isAsciiUpper (c : Char) : Bool := 65 ≤ c.toNat && c.toNat ≤ 90

/-- ASCII digit test. -/
def isDigitCh (c : Char) : Bool := 48 ≤ c.toNat && c.toNat ≤ 57

/-- Decimal digit character: `digChar d` is the character for digit `d`. -/
def digChar (d : Nat) : Char := Char.ofNat (48 + d)

/-- Fuel-driven accumulator loop producing the decimal digits of a natural
number, most significant first (fuel keeps the definition structurally
recursive so that it reduces inside the kernel). -/
def natDigsAux : Nat → Nat → List Char → List Char
  | 0, _, acc => acc
  | fuel + 1, n, acc =>
    let acc2 := digChar (n % 10) :: acc
    if n / 10 = 0 then acc2 else natDigsAux fuel (n / 10) acc2

/-- Decimal digits of a natural number (`Number.prototype.toString` for a
nonnegative integral number). -/
def natDigs (n : Nat) : List Char := natDigsAux (n + 1) n []

/-- Decimal string of an integer, the model of JavaScript `String(n)` for
integral numbers in the safe range. -/
def intStr (n : Int) : String :=
  if n < 0 then ⟨'-' :: natDigs (-n).toNat⟩ else ⟨natDigs n.toNat⟩

/-- Numeric value of a list of decimal digit characters. -/
def parseNum (ds : List Char) : Nat :=
  ds.foldl (fun acc c => acc * 10 + (c.toNat - 48)) 0

/-- Trim JavaScript whitespace from both ends of a character list, as the
`ToNumber` conversion does for strings. -/
def jsTrim (l : List Char) : List Char :=
  ((l.dropWhile jsWhitespace).reverse.dropWhile jsWhitespace).reverse

/-- JavaScript `ToNumber` on a string, restricted to the integral decimal
grammar: optional sign and decimal digits after trimming; the empty string
converts to 0; anything else (including fractional, exponent and hex forms,
which never arise in the scenarios modelled here) is NaN, encoded as
`none`. -/
def parseSigned : List Char → Option Int
  | [] => some 0
  | '-' :: ds =>
    if ds ≠ [] ∧ ds.all isDigitCh then some (-(parseNum ds : Int)) else none
  | '+' :: ds =>
    if ds ≠ [] ∧ ds.all isDigitCh then some (parseNum ds : Int) else none
  | ds =>
    if ds.all isDigitCh then some (parseNum ds : Int) else none

def jsStrToInt (s : String) : Option Int := parseSigned (jsTrim s.data)

/-- Characters the tag encoding leaves untouched, the complement of the
class `[^a-zA-Z0-9\s.\-\/:]` in `tagEncoding.js`. -/
def allowedTagChar (c : Char) : Bool :=
  isAsciiLower c || isAsciiUpper c || isDigitCh c || jsWhitespace c ||
  c == '.' || c == '-' || c == '/' || c == ':'

/-- Uppercase hexadecimal digit character for a value below 16. -/
def hexDigChar (d : Nat) : Char :=
  if d < 10 then Char.ofNat (48 + d) else Char.ofNat (55 + d)

/-- Fuel-driven accumulator loop producing uppercase hexadecimal digits,
most significant first; models `n.toString(16).toUpperCase()`. -/
def natHexAux : Nat → Nat → List Char → List Char
  | 0, _, acc => acc
  | fuel + 1, n, acc =>
    let acc2 := hexDigChar (n % 16) :: acc
    if n / 16 = 0 then acc2 else natHexAux fuel (n / 16) acc2

/-- Uppercase hexadecimal digits of a natural number. -/
def natHex (n : Nat) : List Char := natHexAux (n + 1) n []

/-- Pad a digit list on the left with '0' to length at least 2, the model
of `.padStart(2, '0')`. -/
def hexPad2 (l : List Char) : List Char := if l.length < 2 then '0' :: l else l

/-- First pass of `encodeTagValue`: double every underscore
(`value.replace(/_/g, '__')`). -/
def encStep1 (l : List Char) : List Char :=
  (l.map (fun c => if c == '_' then ['_', '_'] else [c])).flatten

/-- Second pass of `encodeTagValue`: replace every character outside the
allowed class by an underscore followed by the uppercase hexadecimal of its
code unit, padded to at least two digits. -/
def encStep2 (l : List Char) : List Char :=
  (l.map (fun c =>
    if allowedTagChar c then [c] else '_' :: hexPad2 (natHex c.toNat))).flatten

/-- The tag-value encoder of `tagEncoding.js`. -/
def encodeTagValue (s : String) : String := ⟨encStep2 (encStep1 s.data)⟩

/-- Uppercase hexadecimal digit test, the class `[0-9A-F]` used by the
decoder's regular expression. -/
def isUpHexDig (c : Char) : Bool :=
  isDigitCh c || (65 ≤ c.toNat && c.toNat ≤ 70)

/-- Value of an uppercase hexadecimal digit character. -/
def hexVal (c : Char) : Nat :=
  if c.toNat ≤ 57 then c.toNat - 48 else c.toNat - 55

/-- First pass of `decodeTagValue`: the left-to-right action of
`replace(/_([0-9A-F]{2})/g, ...)`, turning each underscore followed by two
uppercase hexadecimal digits into the character with that code. -/
def decPass1 : List Char → List Char
  | [] => []
  | '_' :: c1 :: c2 :: rest =>
    if isUpHexDig c1 && isUpHexDig c2 then
      Char.ofNat (16 * hexVal c1 + hexVal c2) :: decPass1 rest
    else
      '_' :: decPass1 (c1 :: c2 :: rest)
  | c :: rest => c :: decPass1 rest

/-- Second pass of `decodeTagValue`: the left-to-right action of
`replace(/__/g, '_')`, collapsing double underscores. -/
def decPass2 : List Char → List Char
  | [] => []
  | '_' :: '_' :: rest => '_' :: decPass2 rest
  | c :: rest => c :: decPass2 rest

/-- The tag-value decoder of `tagEncoding.js`. -/
def decodeTagValue (s : String) : String := ⟨decPass2 (decPass1 s.data)⟩

/-! ### Facts about the tag codec -/

lemma charOfNat_toNat (c : Char) : Char.ofNat c.toNat = c := by
  apply Char.ext
  simp [Char.ofNat, Char.toNat, c.valid, Char.ofNatAux]
  apply UInt32.ext
  simp [UInt32.ofNat', UInt32.toNat]

/-- The per-character action of the composed encoder: an underscore becomes
two escape tokens, an allowed character is copied, any other character
becomes one escape token. -/
def encChar (c : Char) : List Char :=
  if c = '_' then ['_', '5', 'F', '_', '5', 'F']
  else if allowedTagChar c then [c]
  else '_' :: hexPad2 (natHex c.toNat)

lemma encStep2_append (a b : List Char) :
    encStep2 (a ++ b) = encStep2 a ++ encStep2 b := by
  simp [encStep2]

lemma encode_eq_encChar (l : List Char) :
    encStep2 (encStep1 l) = (l.map encChar).flatten := by
  induction l with
  | nil => rfl
  | cons c l ih =>
    have h1 : encStep1 (c :: l)
        = (if c == '_' then ['_', '_'] else [c]) ++ encStep1 l := by
      simp [encStep1]
    rw [h1, encStep2_append, ih]
    simp only [List.map_cons, List.flatten_cons]
    by_cases hc : c = '_'
    · subst hc
      rfl
    · have hbeq : (c == '_') = false := by simp [hc]
      rw [hbeq]
      simp [encStep2, encChar, hc]

lemma natHex_eq_of_le255 (m : Nat) (h : m ≤ 255) :
    hexPad2 (natHex m) = [hexDigChar (m / 16), hexDigChar (m % 16)] := by
  by_cases h16 : m < 16
  · have hd : m / 16 = 0 := by omega
    have hm : m % 16 = m := by omega
    have h0 : hexDigChar 0 = '0' := by decide
    simp [natHex, natHexAux, hd, hm, hexPad2, h0]
  · obtain ⟨k, rfl⟩ : ∃ k, m = k + 1 := ⟨m - 1, by omega⟩
    have hd : ¬((k + 1) / 16 = 0) := by omega
    have hd2 : ((k + 1) / 16) / 16 = 0 := by omega
    have hm : (k + 1) / 16 % 16 = (k + 1) / 16 := by omega
    simp [natHex, natHexAux, hd, hd2, hm, hexPad2]

lemma isUpHexDig_hexDigChar (d : Nat) (h : d < 16) :
    isUpHexDig (hexDigChar d) = true := by
  interval_cases d <;> decide

lemma hexVal_hexDigChar (d : Nat) (h : d < 16) :
    hexVal (hexDigChar d) = d := by
  interval_cases d <;> decide

lemma decPass1_cons_ne (c : Char) (l : List Char) (h : c ≠ '_') :
    decPass1 (c :: l) = c :: decPass1 l := by
  simp [decPass1, h]

lemma decPass2_cons_ne (c : Char) (l : List Char) (h : c ≠ '_') :
    decPass2 (c :: l) = c :: decPass2 l := by
  simp [decPass2, h]

lemma decPass1_esc (c : Char) (hc : c.toNat ≤ 255) (rest : List Char) :
    decPass1 ('_' :: (hexPad2 (natHex c.toNat) ++ rest)) = c :: decPass1 rest := by
  rw [natHex_eq_of_le255 _ hc]
  have h1 : c.toNat / 16 < 16 := by omega
  have h2 : c.toNat % 16 < 16 := by omega
  simp only [List.cons_append, List.nil_append]
  simp [decPass1, isUpHexDig_hexDigChar _ h1, isUpHexDig_hexDigChar _ h2,
        hexVal_hexDigChar _ h1, hexVal_hexDigChar _ h2]
  have h3 : 16 * (c.toNat / 16) + c.toNat % 16 = c.toNat := by omega
  rw [h3, charOfNat_toNat]

lemma decPass1_encode (l : List Char) (h : ∀ c ∈ l, c.toNat ≤ 255) :
    decPass1 ((l.map encChar).flatten) = encStep1 l := by
  induction l with
  | nil => rfl
  | cons c l ih =>
    have hc255 : c.toNat ≤ 255 := h c (by simp)
    have ihh : decPass1 ((l.map encChar).flatten) = encStep1 l :=
      ih (fun x hx => h x (by simp [hx]))
    simp only [List.map_cons, List.flatten_cons]
    by_cases hc : c = '_'
    · subst hc
      rw [show encChar '_' ++ (List.map encChar l).flatten
            = '_' :: (hexPad2 (natHex ('_').toNat)
              ++ ('_' :: (hexPad2 (natHex ('_').toNat)
                ++ (List.map encChar l).flatten))) from rfl]
      rw [decPass1_esc _ (by decide), decPass1_esc _ (by decide), ihh]
      rfl
    · by_cases ha : allowedTagChar c
      · have e1 : encChar c = [c] := by simp [encChar, hc, ha]
        rw [e1]
        simp only [List.singleton_append]
        rw [decPass1_cons_ne c _ hc, ihh]
        simp [encStep1, hc]
      · have e1 : encChar c = '_' :: hexPad2 (natHex c.toNat) := by
          simp [encChar, hc, ha]
        rw [e1]
        rw [show ('_' :: hexPad2 (natHex c.toNat)) ++ (List.map encChar l).flatten
              = '_' :: (hexPad2 (natHex c.toNat) ++ (List.map encChar l).flatten)
            from rfl]
        rw [decPass1_esc _ hc255, ihh]
        simp [encStep1, hc]

lemma decPass2_dup (l : List Char) : decPass2 (encStep1 l) = l := by
  induction l with
  | nil => rfl
  | cons c l ih =>
    by_cases hc : c = '_'
    · subst hc
      show '_' :: decPass2 (encStep1 l) = '_' :: l
      rw [ih]
    · have e1 : encStep1 (c :: l) = c :: encStep1 l := by simp [encStep1, hc]
      rw [e1, decPass2_cons_ne c _ hc, ih]

/-- Claim C2, counterexample: the claim asserts `decodeTagValue
(encodeTagValue v) = v` for every supported value, but for the one-character
string U+263A the encoder emits a single underscore followed by FOUR
hexadecimal digits (`_263A`), while the decoder consumes exactly two digits
per escape, yielding a different string. -/
theorem c2_counterexample_bmp_codepoint :
    decodeTagValue (encodeTagValue "☺") ≠ "☺" := by decide

/-- Claim C2, amended: decoding inverts encoding on every string whose
characters all have code points at most 0xFF (in particular on ISO-8601
timestamp strings and on decimal integer strings); for characters at or
above 0x100 the round trip fails, and `encodeTagValue` is only defined on
strings (calling it on a number would throw, since numbers have no
`replace` method). -/
theorem c2_decode_encode_roundtrip_latin1 (s : String)
    (h : ∀ c ∈ s.data, c.toNat ≤ 255) :
    decodeTagValue (encodeTagValue s) = s := by
  have h1 : (encodeTagValue s).data = encStep2 (encStep1 s.data) := rfl
  unfold decodeTagValue
  rw [h1, encode_eq_encChar, decPass1_encode s.data h, decPass2_dup]

/-- Witness for the amended Claim C2 at a concrete Latin-1 string with
underscores and an escaped character. -/
theorem c2_decode_encode_roundtrip_witness :
    decodeTagValue (encodeTagValue "user__name@example.com")
      = "user__name@example.com" :=
  c2_decode_encode_roundtrip_latin1 "user__name@example.com" (by decide)

/-! ### Query operators and the query parsers (src/query/QueryParser.js) -/

/-- The internal operator constants of the query parser. -/
inductive Op where
  | EQ
  | GT
  | LT
  | GTE
  | LTE
  | IN
  | NIN
  | BETWEEN
deriving DecidableEq, Repr

/-- A structured condition `{ operator, value }`. -/
structure Cond where
  operator : Op
  value : CondVal
deriving DecidableEq, Repr

/-- The external-to-internal operator mapping (`operatorMap`). -/
def operatorMap (k : String) : Option Op :=
  if k = "$eq" then some .EQ
  else if k = "$gt" then some .GT
  else if k = "$lt" then some .LT
  else if k = "$gte" then some .GTE
  else if k = "$lte" then some .LTE
  else if k = "$in" then some .IN
  else if k = "$nin" then some .NIN
  else if k = "$between" then some .BETWEEN
  else none

/-- The value at one field of a raw query object: a scalar, an array, or a
nested operator object. -/
inductive QVal where
  | scalar (p : JSPrim)
  | arrq (xs : List JSPrim)
  | nested (entries : List (String × CondVal))
deriving DecidableEq, Repr

/-- A raw query object in property insertion order. -/
abbrev Query := List (String × QVal)

/-- The first entry of an operator object whose key is a recognized
operator, as found by the engine parser's loop (which breaks at the first
recognized key and skips unrecognized ones). -/
def firstRecognized : List (String × CondVal) → Option Cond
  | [] => none
  | (k, v) :: rest =>
    match operatorMap k with
    | some op => some ⟨op, v⟩
    | none => firstRecognized rest

/-- Parsing of one nested operator object by the engine's parser: the first
recognized operator wins; if none is recognized the whole object becomes an
EQ condition (the object's contents never influence evaluation, so the
opaque `objq` models it). -/
def parseQueryCond (entries : List (String × CondVal)) : Cond :=
  match firstRecognized entries with
  | some c => c
  | none => ⟨.EQ, .objq⟩

/-- `parseQuery` of the engine's QueryParser variant (the one that exports
`evaluateCondition`): one `{ operator, value }` condition per field. -/
def parseQuery (q : Query) : List (String × Cond) :=
  q.map (fun fv =>
    match fv.2 with
    | .scalar p => (fv.1, ⟨.EQ, .prim p⟩)
    | .arrq xs => (fv.1, ⟨.EQ, .arr xs⟩)
    | .nested entries => (fv.1, parseQueryCond entries))

/-- A parsed field condition in the alternative QueryParser variant: either
a single condition or a list of co-specified conditions. -/
inductive SCond where
  | single (c : Cond)
  | multi (cs : List Cond)
deriving DecidableEq, Repr

/-- All recognized operator entries of an operator object, in insertion
order: one condition per co-specified recognized operator. -/
def allRecognized (entries : List (String × CondVal)) : List Cond :=
  entries.filterMap (fun kv => (operatorMap kv.1).map (fun op => ⟨op, kv.2⟩))

/-- `parseQuery` of the alternative QueryParser variant, which collects a
list with one condition per recognized operator (and falls back to a single
EQ condition when none is recognized or the value is a scalar or array). -/
def parseQueryList (q : Query) : List (String × SCond) :=
  q.map (fun fv =>
    match fv.2 with
    | .scalar p => (fv.1, .single ⟨.EQ, .prim p⟩)
    | .arrq xs => (fv.1, .single ⟨.EQ, .arr xs⟩)
    | .nested entries =>
      let cs := allRecognized entries
      if cs.isEmpty then (fv.1, .single ⟨.EQ, .objq⟩) else (fv.1, .multi cs))

/-! ### In-memory condition evaluation (evaluateCondition) -/

/-- Position constraints of the date regular expression
`^\d{4}-\d{2}-\d{2}T\d{2}:\d{2}:\d{2}.\d{3}Z$` (the unescaped dot at
position 19 matches anything but a line terminator). -/
def isoPosOk (i : Nat) (c : Char) : Bool :=
  if i == 4 || i == 7 then c == '-'
  else if i == 10 then c == 'T'
  else if i == 13 || i == 16 then c == ':'
  else if i == 19 then !(jsLineTerm c)
  else if i == 23 then c == 'Z'
  else isDigitCh c

/-- The test `isISODateString` of the query parser. -/
def isoMatch (s : String) : Bool :=
  s.data.length == 24 &&
  (List.range 24).all (fun i => isoPosOk i (s.data.getD i ' '))

/-- Numeric value of a fixed-width digit slice of a character list. -/
def isoSlice (l : List Char) (a b : Nat) : Nat := parseNum ((l.drop a).take b)

/-- Gregorian leap-year test. -/
def isLeapYear (y : Nat) : Bool := (y % 4 == 0 && y % 100 != 0) || y % 400 == 0

/-- Days in a month of the proleptic Gregorian calendar. -/
def daysInMonth (m : Nat) (leap : Bool) : Nat :=
  if m = 2 then (if leap then 29 else 28)
  else if m = 4 ∨ m = 6 ∨ m = 9 ∨ m = 11 then 30
  else 31

/-- Days from the Unix epoch to a civil date (Howard Hinnant's
days-from-civil algorithm). -/
def daysFromCivil (y m d : Int) : Int :=
  let y2 := if m ≤ 2 then y - 1 else y
  let era := (if 0 ≤ y2 then y2 else y2 - 399) / 400
  let yoe := y2 - era * 400
  let mp := (m + 9) % 12
  let doy := (153 * mp + 2) / 5 + d - 1
  let doe := yoe * 365 + yoe / 4 - yoe / 100 + doy
  era * 146097 + doe - 719468

/-- The epoch milliseconds of a string in the date format, or `none` (NaN)
when the components are out of range or the separator at position 19 is not
the literal dot required by the ECMAScript date-time format (the regular
expression accepts any character there, but `new Date(...)` then yields an
invalid date). The 24:00:00.000 end-of-day form is accepted, as in
ECMAScript. -/
def jsDateEpoch (s : String) : Option Int :=
  if isoMatch s then
    let l := s.data
    let y := isoSlice l 0 4
    let mo := isoSlice l 5 2
    let da := isoSlice l 8 2
    let hh := isoSlice l 11 2
    let mi := isoSlice l 14 2
    let se := isoSlice l 17 2
    let ms := isoSlice l 20 3
    if l.getD 19 ' ' = '.' ∧ 1 ≤ mo ∧ mo ≤ 12 ∧ 1 ≤ da ∧
       da ≤ daysInMonth mo (isLeapYear y) ∧
       ((hh ≤ 23 ∧ mi ≤ 59 ∧ se ≤ 59) ∨ (hh = 24 ∧ mi = 0 ∧ se = 0 ∧ ms = 0)) then
      some (daysFromCivil y mo da * 86400000 +
        ((hh : Int) * 3600000 + mi * 60000 + se * 1000 + ms))
    else none
  else none

/-- String conversion of a runtime value in the `Array.prototype.join`
sense (`undefined` becomes empty); nested arrays do not arise from parsed
conditions, so the nested case is flattened to the empty string. -/
def jsValToStringFlat : JsVal → String
  | .str s => s
  | .num n => intStr n
  | .nan => "NaN"
  | .undefVal => ""
  | .arrv _ => ""
  | .objv => "[object Object]"

/-- String conversion of a runtime value, with `ToPrimitive` of an array
being the comma join of its elements. -/
def jsValToString (v : JsVal) : String :=
  match v with
  | .arrv xs => String.intercalate "," (xs.map jsValToStringFlat)
  | w => jsValToStringFlat w

/-- JavaScript `ToNumber` of a runtime value, with `none` for NaN. -/
def toNumJs : JsVal → Option Int
  | .num n => some n
  | .str s => jsStrToInt s
  | .nan => none
  | .undefVal => none
  | .arrv xs => jsStrToInt (jsValToString (.arrv xs))
  | .objv => none

/-- Lexicographic comparison of character lists by code point, the
JavaScript string ordering (code-unit order, which coincides with
code-point order on the basic multilingual plane). -/
def lexLtChars : List Char → List Char → Bool
  | [], [] => false
  | [], _ :: _ => true
  | _ :: _, [] => false
  | a :: as, b :: bs =>
    if a.toNat < b.toNat then true
    else if b.toNat < a.toNat then false
    else lexLtChars as bs

/-- JavaScript string less-than. -/
def lexLt (s t : String) : Bool := lexLtChars s.data t.data

/-- JavaScript strict equality `===` on runtime values.  Arrays and objects
compare by reference identity; distinct references (the only case arising
here, since document values are primitives) are unequal. -/
def strictEq : JsVal → JsVal → Bool
  | .str s, .str t => s == t
  | .num a, .num b => a == b
  | .undefVal, .undefVal => true
  | _, _ => false

/-- The SameValueZero comparison used by `Array.prototype.includes`
(differs from strict equality only at NaN). -/
def sameValueZero (a b : JsVal) : Bool :=
  match a, b with
  | .nan, .nan => true
  | _, _ => strictEq a b

/-- JavaScript property access `v[i]` for a numeric index: array element,
single-character string, otherwise `undefined`. -/
def jsIdx (v : JsVal) (i : Nat) : JsVal :=
  match v with
  | .arrv xs => xs.getD i .undefVal
  | .str s =>
    match s.data.get? i with
    | some c => .str ⟨[c]⟩
    | none => .undefVal
  | _ => .undefVal

/-- JavaScript `a < b`: string comparison when both are strings, otherwise
numeric after `ToNumber` (false when either side is NaN). -/
def jsLtB : JsVal → JsVal → Bool
  | .str s, .str t => lexLt s t
  | a, b =>
    match toNumJs a, toNumJs b with
    | some x, some y => decide (x < y)
    | _, _ => false

/-- JavaScript `a > b`. -/
def jsGtB : JsVal → JsVal → Bool
  | .str s, .str t => lexLt t s
  | a, b =>
    match toNumJs a, toNumJs b with
    | some x, some y => decide (y < x)
    | _, _ => false

/-- JavaScript `a <= b` (the negation of `b < a`, false under NaN). -/
def jsLeB : JsVal → JsVal → Bool
  | .str s, .str t => !(lexLt t s)
  | a, b =>
    match toNumJs a, toNumJs b with
    | some x, some y => decide (x ≤ y)
    | _, _ => false

/-- JavaScript `a >= b`. -/
def jsGeB : JsVal → JsVal → Bool
  | .str s, .str t => !(lexLt s t)
  | a, b =>
    match toNumJs a, toNumJs b with
    | some x, some y => decide (y ≤ x)
    | _, _ => false

/-- The `operatorFunctions` table of the query parser. -/
def applyOp : Op → JsVal → JsVal → Bool
  | .EQ, a, b => strictEq a b
  | .GT, a, b => jsGtB a b
  | .LT, a, b => jsLtB a b
  | .GTE, a, b => jsGeB a b
  | .LTE, a, b => jsLeB a b
  | .IN, a, b =>
    match b with
    | .arrv xs => xs.any (fun x => sameValueZero x a)
    | _ => false
  | .NIN, a, b =>
    match b with
    | .arrv xs => !(xs.any (fun x => sameValueZero x a))
    | _ => false
  | .BETWEEN, a, b => jsGeB a (jsIdx b 0) && jsLeB a (jsIdx b 1)

/-- Injection of a stored primitive into runtime values. -/
def primToJsVal : JSPrim → JsVal
  | .str s => .str s
  | .num n => .num n

/-- Injection of a parsed condition value into runtime values. -/
def condValToJsVal : CondVal → JsVal
  | .prim p => primToJsVal p
  | .arr xs => .arrv (xs.map primToJsVal)
  | .objq => .objv

/-- The number a date-format string evaluates to (`new
Date(s).getTime()`): epoch milliseconds or NaN. -/
def isoDateNum (s : String) : JsVal :=
  match jsDateEpoch s with
  | some e => .num e
  | none => .nan

/-- Date normalization of one condition value. -/
def isoNormalizeElem (v : JsVal) : JsVal :=
  match v with
  | .str t => if isoMatch t then isoDateNum t else .str t
  | w => w

/-- Date normalization of the condition value: arrays are mapped
element-wise, other values directly. -/
def isoNormalize (v : JsVal) : JsVal :=
  match v with
  | .arrv xs => .arrv (xs.map isoNormalizeElem)
  | w => isoNormalizeElem w

/-- `evaluateCondition` of the engine's QueryParser: false when the field
is absent; when the document value is a string in the date format, both
sides are normalized to epoch milliseconds before applying the operator. -/
def evaluateCondition (doc : Doc) (field : String) (c : Cond) : Bool :=
  match alookup doc field with
  | none => false
  | some dv =>
    match dv with
    | .str s =>
      if isoMatch s then
        applyOp c.operator (isoDateNum s) (isoNormalize (condValToJsVal c.value))
      else
        applyOp c.operator (primToJsVal dv) (condValToJsVal c.value)
    | _ => applyOp c.operator (primToJsVal dv) (condValToJsVal c.value)

/-- The conjunction `Object.entries(structuredQuery).every(...)` used as
the in-memory filter of `find` and `countDocuments`. -/
def matchesStructured (sq : List (String × Cond)) (d : Doc) : Bool :=
  sq.all (fun fc => evaluateCondition d fc.1 fc.2)

/-- JavaScript `String(v)` for a stored primitive, the conversion applied
to a value when it is used as an object property key. -/
def jsToString : JSPrim → String
  | .str s => s
  | .num n => intStr n

/-- Property-key conversion of a parsed condition value (`index[value]`). -/
def condValKey : CondVal → String
  | .prim p => jsToString p
  | .arr xs => String.intercalate "," (xs.map jsToString)
  | .objq => "[object Object]"

/-! ### Claims about the parser and evaluator (C3, C9) -/

lemma firstRecognized_eq_head (entries : List (String × CondVal)) :
    firstRecognized entries = (allRecognized entries).head? := by
  induction entries with
  | nil => rfl
  | cons kv rest ih =>
    simp only [firstRecognized, allRecognized, List.filterMap_cons]
    cases operatorMap kv.1 with
    | none => simpa [allRecognized] using ih
    | some op => rfl

/-- The concrete query `{ age: { $gte: 18, $lt: 30 } }` of the claim. -/
def c3Query : Query :=
  [("age", .nested [("$gte", .prim (.num 18)), ("$lt", .prim (.num 30))])]

/-- A document violating the co-specified `$lt: 30` condition. -/
def c3Doc : Doc := [("age", .num 35)]

/-- Claim C3, counterexample: on `{ age: { $gte: 18, $lt: 30 } }` the
engine's parseQuery produces a single GTE condition (not a two-element
list), and evaluation accepts the document `{ age: 35 }` even though the
co-specified `$lt: 30` condition fails on it — so evaluation does not
require all co-specified conditions to hold. -/
theorem c3_counterexample_second_operator_ignored :
    parseQuery c3Query = [("age", ⟨.GTE, .prim (.num 18)⟩)] ∧
    matchesStructured (parseQuery c3Query) c3Doc = true ∧
    evaluateCondition c3Doc "age" ⟨.LT, .prim (.num 30)⟩ = false := by
  refine ⟨rfl, rfl, ?_⟩
  decide

/-- Claim C3, amended: the alternative parser variant does produce the
ordered list with one condition per recognized co-specified operator, but
the engine's active parser (the variant its evaluator belongs to) keeps
only the FIRST recognized operator of each field and drops the rest, and
evaluation consequently enforces only that first condition. -/
theorem c3_parseQuery_first_operator_wins (f : String)
    (entries : List (String × CondVal)) (c : Cond) (cs : List Cond)
    (h : allRecognized entries = c :: cs) :
    parseQuery [(f, .nested entries)] = [(f, c)] ∧
    parseQueryList [(f, .nested entries)] = [(f, .multi (c :: cs))] := by
  constructor
  · simp [parseQuery, parseQueryCond, firstRecognized_eq_head, h]
  · simp [parseQueryList, h]

/-- Witness for the amended Claim C3 at the concrete query of the claim:
the active parser keeps only GTE 18, the alternative parser produces the
ordered pair of conditions. -/
theorem c3_parseQuery_first_operator_witness :
    parseQuery [("age", .nested [("$gte", .prim (.num 18)), ("$lt", .prim (.num 30))])]
      = [("age", ⟨.GTE, .prim (.num 18)⟩)] ∧
    parseQueryList [("age", .nested [("$gte", .prim (.num 18)), ("$lt", .prim (.num 30))])]
      = [("age", .multi [⟨.GTE, .prim (.num 18)⟩, ⟨.LT, .prim (.num 30)⟩])] :=
  c3_parseQuery_first_operator_wins "age" _ _ _ rfl

/-- Claim C9, confirmed: when the queried field is absent from the
document, `evaluateCondition` returns false for every operator and every
condition value — including NIN — and is total (no error path). -/
theorem c9_absent_field_all_ops_false (d : Doc) (f : String) (c : Cond)
    (h : alookup d f = none) : evaluateCondition d f c = false := by
  simp [evaluateCondition, h]

/-- Witness for Claim C9: a NIN condition on a missing field evaluates to
false. -/
theorem c9_absent_field_witness :
    evaluateCondition [("age", JSPrim.num 30)] "city"
      ⟨.NIN, .arr [.str "NYC"]⟩ = false :=
  c9_absent_field_all_ops_false _ _ _ rfl

/-! ### The blob store model (src/storage/AzureBlobStorage.js) -/

/-- Field specification of an index: `createIndex` accepts either a single
field name or an ordered list. -/
inductive FieldSpec where
  | one (f : String)
  | many (fs : List String)
deriving DecidableEq, Repr

/-- Index type: `default` (single-field projection) or `compound`.  The
legacy date-granularity type is excluded from the model (the specification
excludes date bucketing from the canonical design). -/
inductive IdxType where
  | dflt
  | compound
deriving DecidableEq, Repr

/-- The contents of an index blob `<collection>_<fields>` in the
`__indexes` container: a JSON map from stringified field value to the list
of ids of documents having that value. -/
structure IndexData where
  idxType : IdxType
  fields : FieldSpec
  unique : Bool
  index : List (String × List String)
deriving DecidableEq, Repr

/-- The blob store plus the in-process `uniqueConstraints` cache of the
`AzureBlobStorage` instance (the cache is populated only by `createIndex`
calls made through the same instance, not from existing index blobs). -/
structure Store where
  colls : List (String × List (String × Doc))
  indexes : List (String × IndexData)
  uniqueConstraints : List (String × List FieldSpec)
deriving DecidableEq, Repr

/-- Error kinds raised by the modelled operations. -/
inductive DbErr where
  | uniqueViolation
  | blobNotFound
  | typeError
deriving DecidableEq, Repr

/-- The index name of a field specification (`fields.join('_')` for an
array, the field itself otherwise). -/
def fieldSpecName : FieldSpec → String
  | .one f => f
  | .many fs => String.intercalate "_" fs

/-- The field list of an index (`Array.isArray(fields) ? fields :
[fields]`). -/
def fieldList : FieldSpec → List String
  | .one f => [f]
  | .many fs => fs

/-- `getIndexValue`: the document's value at a single field, or the
underscore join of the values of a field list (`undefined` — `none` — when
any constituent is missing). -/
def getIndexValue (doc : Doc) (fs : FieldSpec) : Option JSPrim :=
  match fs with
  | .one f => alookup doc f
  | .many l =>
    let vs := l.map (alookup doc)
    if vs.any Option.isNone then none
    else some (.str (String.intercalate "_"
      (vs.map (fun v => jsToString (v.getD (.str ""))))))

/-- The loop body of `checkUniqueConstraints`: for each registered
constraint, load the index blob and fail when it is unique and the new
document's value already has a nonempty id list — note that the current
document's own id is NOT excluded. -/
def checkConstraintList (st : Store) (coll : String) (data : Doc) :
    List FieldSpec → Except DbErr Unit
  | [] => .ok ()
  | fs :: rest =>
    let indexKey := coll ++ "_" ++ fieldSpecName fs
    let violated :=
      match alookup st.indexes indexKey with
      | some ixd =>
        ixd.unique &&
        (match getIndexValue data fs with
         | some v =>
           match alookup ixd.index (jsToString v) with
           | some ids => !ids.isEmpty
           | none => false
         | none => false)
      | none => false
    if violated then .error .uniqueViolation
    else checkConstraintList st coll data rest

/-- `checkUniqueConstraints`: probe every constraint registered in the
in-process cache for this collection. -/
def checkUniqueConstraints (st : Store) (coll : String) (data : Doc) :
    Except DbErr Unit :=
  checkConstraintList st coll data ((alookup st.uniqueConstraints coll).getD [])

/-- `read`: fetch and parse the document blob, `none` (null) when the
collection or the blob is absent — the source catches the error and
returns null rather than raising. -/
def readDoc (st : Store) (coll id : String) : Option Doc :=
  (alookup st.colls coll).bind (fun c => alookup c id)

/-- `getContainerClient`'s `createIfNotExists`: make sure the collection's
container exists. -/
def ensureColl (st : Store) (coll : String) : Store :=
  match alookup st.colls coll with
  | some _ => st
  | none => { st with colls := st.colls ++ [(coll, [])] }

/-- Upload of a document blob (overwrite semantics). -/
def setDoc (st : Store) (coll id : String) (d : Doc) : Store :=
  let st1 := ensureColl st coll
  { st1 with
    colls := aset st1.colls coll (aset ((alookup st1.colls coll).getD []) id d) }

/-- Removal of a document blob. -/
def removeDocBlob (st : Store) (coll id : String) : Store :=
  { st with
    colls := aset st.colls coll (aremove ((alookup st.colls coll).getD []) id) }

/-- The old-value removal step shared by the index update and removal
paths: drop the id from the entry of the old value and delete the entry
when it empties. -/
def removeOldFromIndex (ix : List (String × List String)) (fs : FieldSpec)
    (id : String) (oldData : Option Doc) : List (String × List String) :=
  match oldData with
  | none => ix
  | some od =>
    match getIndexValue od fs with
    | none => ix
    | some ov =>
      let k := jsToString ov
      match alookup ix k with
      | none => ix
      | some ids =>
        let ids2 := ids.filter (fun x => x ≠ id)
        if ids2.isEmpty then aremove ix k else aset ix k ids2

/-- `updateDefaultIndex`: remove the old value's entry, then add the id
under the new value — raising a unique violation when the index is unique
and the new value's id list is nonempty (this runs AFTER the document blob
has been uploaded). -/
def updateDefaultIndex (ixd : IndexData) (id : String) (newData : Doc)
    (oldData : Option Doc) : Except DbErr IndexData :=
  let index1 := removeOldFromIndex ixd.index ixd.fields id oldData
  match getIndexValue newData ixd.fields with
  | none => .ok { ixd with index := index1 }
  | some nv =>
    let k := jsToString nv
    match alookup index1 k with
    | some ids =>
      if ixd.unique ∧ ¬ids.isEmpty then .error .uniqueViolation
      else .ok { ixd with
        index := aset index1 k (if id ∈ ids then ids else ids ++ [id]) }
    | none => .ok { ixd with index := aset index1 k [id] }

/-- `updateCompoundIndex`: as the default case but without a uniqueness
check. -/
def updateCompoundIndex (ixd : IndexData) (id : String) (newData : Doc)
    (oldData : Option Doc) : IndexData :=
  let index1 := removeOldFromIndex ixd.index ixd.fields id oldData
  match getIndexValue newData ixd.fields with
  | none => { ixd with index := index1 }
  | some nv =>
    let k := jsToString nv
    let ids := (alookup index1 k).getD []
    { ixd with index := aset index1 k (if id ∈ ids then ids else ids ++ [id]) }

/-- Whether the first character list starts with the second. -/
def listStartsWith : List Char → List Char → Bool
  | _, [] => true
  | [], _ :: _ => false
  | c :: cs, d :: ds => c == d && listStartsWith cs ds

/-- Whether the string starts with the given other string (the blob-name
prefix filter of the listings). -/
def strStartsWith (s p : String) : Bool := listStartsWith s.data p.data

/-- The index blobs of a collection, in the lexicographic name order the
blob listing yields. -/
def collIndexEntries (st : Store) (coll : String) : List (String × IndexData) :=
  List.insertionSort (fun a b => lexLt b.1 a.1 = false)
    (st.indexes.filter (fun kv => strStartsWith kv.1 (coll ++ "_")))

/-- The iteration of `updateIndexes` over the listed index blobs: each
index blob is rewritten in turn; a uniqueness error from
`updateDefaultIndex` aborts the loop, leaving the blobs written so far
committed.  (Entity-tag retries cannot fire in the sequential model.) -/
def updateIndexesLoop (st : Store) (id : String) (newData : Doc)
    (oldData : Option Doc) : List String → Store × Except DbErr Unit
  | [] => (st, .ok ())
  | key :: rest =>
    match alookup st.indexes key with
    | none => updateIndexesLoop st id newData oldData rest
    | some ixd =>
      match ixd.idxType with
      | .compound =>
        let ixd2 := updateCompoundIndex ixd id newData oldData
        updateIndexesLoop { st with indexes := aset st.indexes key ixd2 }
          id newData oldData rest
      | .dflt =>
        match updateDefaultIndex ixd id newData oldData with
        | .error e => (st, .error e)
        | .ok ixd2 =>
          updateIndexesLoop { st with indexes := aset st.indexes key ixd2 }
            id newData oldData rest

/-- `updateIndexes`: list the collection's index blobs, then update each. -/
def updateIndexes (st : Store) (coll id : String) (newData : Doc)
    (oldData : Option Doc) : Store × Except DbErr Unit :=
  updateIndexesLoop st id newData oldData ((collIndexEntries st coll).map Prod.fst)

/-- The iteration of `removeFromIndexes`.  The default path only rewrites
the blob when the old value exists in the index; the compound path indexes
`index[oldValue]` without an existence check, so a missing entry raises a
TypeError. -/
def removeFromIndexesLoop (st : Store) (id : String) (oldData : Doc) :
    List String → Store × Except DbErr Unit
  | [] => (st, .ok ())
  | key :: rest =>
    match alookup st.indexes key with
    | none => removeFromIndexesLoop st id oldData rest
    | some ixd =>
      match ixd.idxType with
      | .dflt =>
        let ixd2 := { ixd with
          index := removeOldFromIndex ixd.index ixd.fields id (some oldData) }
        removeFromIndexesLoop { st with indexes := aset st.indexes key ixd2 }
          id oldData rest
      | .compound =>
        match getIndexValue oldData ixd.fields with
        | none => removeFromIndexesLoop st id oldData rest
        | some ov =>
          match alookup ixd.index (jsToString ov) with
          | none => (st, .error .typeError)
          | some ids =>
            let ids2 := ids.filter (fun x => x ≠ id)
            let ix2 := if ids2.isEmpty then aremove ixd.index (jsToString ov)
              else aset ixd.index (jsToString ov) ids2
            removeFromIndexesLoop
              { st with indexes := aset st.indexes key { ixd with index := ix2 } }
              id oldData rest

/-- `create`: mint or accept an id (an empty string is falsy, so it is
replaced by a fresh ulid), assign it INTO the caller's data object, check
unique constraints, upload the blob, then update the indexes.  The second
component of the result is the caller-visible state of the data object
after the call.  The resolved id is `existingId || ulid()`: a missing or
empty (falsy) supplied id is replaced by the fresh ulid. -/
def resolveId (existingId : Option String) (freshId : String) : String :=
  match existingId with
  | some s => if s = "" then freshId else s
  | none => freshId

/-- The body of `create` (see `resolveId` for the id resolution). -/
def create (st : Store) (coll : String) (data : Doc) (existingId : Option String)
    (freshId : String) : Store × Doc × Except DbErr String :=
  let id := resolveId existingId freshId
  let data2 := aset data "id" (.str id)
  match checkUniqueConstraints st coll data2 with
  | .error e => (st, data2, .error e)
  | .ok _ =>
    let st1 := setDoc st coll id data2
    match updateIndexes st1 coll id data2 none with
    | (st2, .error e) => (st2, data2, .error e)
    | (st2, .ok _) => (st2, data2, .ok id)

/-- `update`: read the old document (null when absent — no NotFound
check), probe unique constraints with the NEW data (without excluding the
current document's own id), then upload with overwrite semantics — which
CREATES the document when the id was absent — and update the indexes. -/
def update (st : Store) (coll id : String) (data : Doc) :
    Store × Doc × Except DbErr Unit :=
  let st0 := ensureColl st coll
  let oldData := readDoc st0 coll id
  match checkUniqueConstraints st0 coll data with
  | .error e => (st0, data, .error e)
  | .ok _ =>
    let data2 := aset data "id" (.str id)
    let st1 := setDoc st0 coll id data2
    match updateIndexes st1 coll id data2 oldData with
    | (st2, .error e) => (st2, data2, .error e)
    | (st2, .ok _) => (st2, data2, .ok ())

/-- `delete`: read the old document, delete the blob — the SDK's
unconditional blob delete raises a 404 error when the blob is absent — and
remove the id from the indexes. -/
def deleteDoc (st : Store) (coll id : String) : Store × Except DbErr Unit :=
  let st1 := ensureColl st coll
  match readDoc st1 coll id with
  | none => (st1, .error .blobNotFound)
  | some od =>
    let st2 := removeDocBlob st1 coll id
    removeFromIndexesLoop st2 id od ((collIndexEntries st2 coll).map Prod.fst)

/-! ### The query executor (find and its helpers) -/

/-- `lookupIndexIds` on a (non-date) index blob: an EQ condition reads the
entry at the stringified condition value directly; any other operator scans
every entry, evaluating the condition against the entry's KEY — a string,
whatever the type of the stored value was — and collects the ids of the
matching entries.  Returns `none` (null) when the single-field index blob
does not exist. -/
def lookupIndexIds (st : Store) (coll field : String) (c : Cond) :
    Option (List String) :=
  match alookup st.indexes (coll ++ "_" ++ field) with
  | none => none
  | some ixd =>
    if c.operator = .EQ then
      some ((alookup ixd.index (condValKey c.value)).getD [])
    else
      some (ixd.index.foldr
        (fun kv acc =>
          if evaluateCondition [(field, .str kv.1)] field c then kv.2 ++ acc
          else acc) [])

/-- `intersectSets`: left fold of pairwise intersection, preserving the
first set's order. -/
def intersectSets : List (List String) → List String
  | [] => []
  | s :: rest => rest.foldl (fun a b => a.filter (fun x => x ∈ b)) s

/-- JavaScript `new Set(...)` then `Array.from`: deduplicate keeping first
occurrences. -/
def setList (l : List String) : List String :=
  l.foldl (fun acc x => if x ∈ acc then acc else acc ++ [x]) []

/-- JavaScript default `Array.prototype.sort` on strings. -/
def sortStrings (l : List String) : List String :=
  List.insertionSort (fun a b => lexLt b a = false) l

/-- The best-index record tracked by the planner loop. -/
structure BestIdx where
  key : String
  ifields : List String
  idxType : IdxType
deriving DecidableEq, Repr

/-- The best-index selection loop of `find`: keep the index matching
strictly more query fields than any seen before, stopping early when one
matches every query field. -/
def bestIndexLoop (sq : List (String × Cond)) :
    List (String × IndexData) → Option BestIdx → Nat → Option BestIdx
  | [], best, _ => best
  | (key, ixd) :: rest, best, maxMatched =>
    let ifields := fieldList ixd.fields
    let matched := (ifields.filter (fun f => (alookup sq f).isSome)).length
    let best2 := if matched > maxMatched then some ⟨key, ifields, ixd.idxType⟩ else best
    let max2 := if matched > maxMatched then matched else maxMatched
    if matched = sq.length then best2 else bestIndexLoop sq rest best2 max2

/-- The single-field index combination loop of `find`: look up candidate
ids per query field; when a field has no index the loop breaks, and the
sets collected so far (if any) are still intersected. -/
def combineLoop (st : Store) (coll : String) :
    List (String × Cond) → List (List String) → Option (List String)
  | [], sets => if sets.isEmpty then none else some (intersectSets sets)
  | (f, c) :: rest, sets =>
    match lookupIndexIds st coll f c with
    | some ids => combineLoop st coll rest (sets ++ [ids])
    | none => if sets.isEmpty then none else some (intersectSets sets)

/-- The candidate-id computation of `find` for a nonempty structured
query: pick the best index; when it is a compound index covering all its
fields, or a single-field index on a query field, probe just its FIRST
field's condition; otherwise combine single-field lookups per query field.
`none` means fall back to the full collection scan. -/
def candidateIdsOf (st : Store) (coll : String) (sq : List (String × Cond)) :
    Option (List String) :=
  match bestIndexLoop sq (collIndexEntries st coll) none 0 with
  | none => none
  | some b =>
    if (b.idxType = .compound ∧ b.ifields.all (fun f => (alookup sq f).isSome))
       ∨ (b.idxType ≠ .compound ∧ b.ifields.length = 1 ∧
          b.ifields.all (fun f => (alookup sq f).isSome)) then
      match b.ifields with
      | [] => none
      | f :: _ =>
        match alookup sq f with
        | some c => lookupIndexIds st coll f c
        | none => none
    else combineLoop st coll sq []

/-- The options of `find`: `limit` (`none` is Infinity), `offset`, and the
`after` cursor. -/
structure FindOpts where
  limit : Option Nat
  offset : Nat
  after : Option String
deriving DecidableEq, Repr

/-- `fullCollectionScan`: the names of all blobs of the collection (the
listing yields them in lexicographic order; the caller sorts anyway). -/
def fullCollectionScan (st : Store) (coll : String) : List String :=
  ((alookup st.colls coll).getD []).map Prod.fst

/-- The shared tail of `find` for a nonempty query: deduplicate and sort
the candidate ids, apply the `after` cursor or the offset, slice by the
limit, fetch each document, and only THEN filter by the whole structured
query. -/
def finishCandidates (st : Store) (coll : String) (sq : List (String × Cond))
    (cand : List String) (opts : FindOpts) : List Doc :=
  let sortedIds := sortStrings (setList cand)
  let start :=
    match opts.after with
    | some a =>
      match sortedIds.findIdx? (fun x => lexLt a x) with
      | some i => i + 1
      | none => 0
    | none => opts.offset
  let rest := sortedIds.drop start
  let paginated :=
    match opts.limit with
    | some l => rest.take l
    | none => rest
  let docs := paginated.filterMap (fun id => readDoc st coll id)
  docs.filter (fun d => matchesStructured sq d)

/-- The empty-query listing mode of `find`: page through the blob listing
in name order, skip entries up to the `after` cursor and the offset, fetch
documents, and stop once `limit` documents have been collected. -/
def listingFind (st : Store) (coll : String) (opts : FindOpts) : List Doc :=
  let names := sortStrings (((alookup st.colls coll).getD []).map Prod.fst)
  let names2 :=
    match opts.after with
    | some a => names.filter (fun n => lexLt a n)
    | none => names
  let names3 := names2.drop opts.offset
  let docs := names3.filterMap (fun id => readDoc st coll id)
  match opts.limit with
  | some l => docs.take l
  | none => docs

/-- `find` on an already-parsed structured query: listing mode for an
empty query, otherwise index candidates (full scan when no usable index)
followed by the shared pagination-then-filter tail. -/
def findStructured (st : Store) (coll : String) (sq : List (String × Cond))
    (opts : FindOpts) : List Doc :=
  if sq.isEmpty then listingFind st coll opts
  else
    finishCandidates st coll sq
      ((candidateIdsOf st coll sq).getD (fullCollectionScan st coll)) opts

/-- The full-scan execution mode of `find`: enumerate every document of
the collection and evaluate the predicate in memory (the code's fallback
branch, taken when no usable index exists). -/
def fullScanFind (st : Store) (coll : String) (sq : List (String × Cond))
    (opts : FindOpts) : List Doc :=
  finishCandidates st coll sq (fullCollectionScan st coll) opts

/-- `find` on a raw query object. -/
def find (st : Store) (coll : String) (q : Query) (opts : FindOpts) : List Doc :=
  findStructured st coll (parseQuery q) opts

/-- The index contents `create`/`update` maintain for a single-field
default index over a committed set of documents: one entry per distinct
stringified field value (in first-appearance order), holding the ids of
the documents with that value (in document order). -/
def keyIds (docs : List (String × Doc)) (f : String) (k : String) : List String :=
  (docs.filter (fun p => ((alookup p.2 f).map jsToString) == some k)).map Prod.fst

/-- The canonical (fully consistent) single-field index over a committed
set of documents. -/
def canonicalIndex (docs : List (String × Doc)) (f : String) :
    List (String × List String) :=
  let keys := setList (docs.filterMap (fun p => (alookup p.2 f).map jsToString))
  keys.map (fun k => (k, keyIds docs f k))

/-! ### Helper lemmas about the store model -/

lemma alookup_aset_self {α : Type} (l : List (String × α)) (k : String) (v : α) :
    alookup (aset l k v) k = some v := by
  induction l with
  | nil => simp [aset, alookup]
  | cons p rest ih =>
    obtain ⟨a, b⟩ := p
    by_cases h : a = k
    · simp [aset, alookup, h]
    · simp [aset, alookup, h, ih]

lemma ensureColl_indexes (st : Store) (coll : String) :
    (ensureColl st coll).indexes = st.indexes := by
  unfold ensureColl
  cases alookup st.colls coll <;> rfl

lemma ensureColl_uc (st : Store) (coll : String) :
    (ensureColl st coll).uniqueConstraints = st.uniqueConstraints := by
  unfold ensureColl
  cases alookup st.colls coll <;> rfl

lemma setDoc_indexes (st : Store) (coll id : String) (d : Doc) :
    (setDoc st coll id d).indexes = st.indexes := by
  unfold setDoc
  simp [ensureColl_indexes]

lemma checkConstraintList_indexes_congr (st st' : Store) (coll : String)
    (data : Doc) (h : st.indexes = st'.indexes) (L : List FieldSpec) :
    checkConstraintList st coll data L = checkConstraintList st' coll data L := by
  induction L with
  | nil => rfl
  | cons fs rest ih => simp [checkConstraintList, h, ih]

lemma checkUnique_ensureColl (st : Store) (coll coll' : String) (data : Doc) :
    checkUniqueConstraints (ensureColl st coll') coll data
      = checkUniqueConstraints st coll data := by
  unfold checkUniqueConstraints
  rw [ensureColl_uc]
  exact checkConstraintList_indexes_congr _ _ _ _ (ensureColl_indexes st coll') _

lemma collIndexEntries_congr (st st' : Store) (coll : String)
    (h : st.indexes = st'.indexes) :
    collIndexEntries st coll = collIndexEntries st' coll := by
  unfold collIndexEntries
  rw [h]

lemma read_setDoc (st : Store) (coll id : String) (d : Doc) :
    readDoc (setDoc st coll id d) coll id = some d := by
  unfold readDoc setDoc
  simp [alookup_aset_self]

/-! ### Concrete scenario stores shared by the write-path claims -/

/-- A committed document with a unique email. -/
def uvDoc1 : Doc := [("email", .str "a@b"), ("id", .str "d1")]

/-- A unique default index on `email` holding the committed document. -/
def uvIndex : IndexData := ⟨.dflt, .one "email", true, [("a@b", ["d1"])]⟩

/-- A store as seen by a fresh process: the unique index blob exists, but
the in-process `uniqueConstraints` cache is empty (it is filled only by
`createIndex` calls made through the same instance). -/
def uvStoreFresh : Store :=
  ⟨[("users", [("d1", uvDoc1)])], [("users_email", uvIndex)], []⟩

/-- The same store with the unique constraint registered in the in-process
cache (the process that ran `createIndex`). -/
def uvStoreReg : Store :=
  ⟨[("users", [("d1", uvDoc1)])], [("users_email", uvIndex)],
   [("users", [.one "email"])]⟩

/-- A store with an existing empty `users` collection and no indexes. -/
def emptyUsersStore : Store := ⟨[("users", [])], [], []⟩

/-! ### Claim C4: update with unchanged unique values (code bug) -/

/-- Claim C4: the claim (and the specification) says an update that leaves
every unique-field value unchanged must succeed, the probe excluding the
document's own id.  The code's `update` runs `checkUniqueConstraints` — the
same self-inclusive probe as `create` — BEFORE writing, so updating `d1`
while keeping its unique email `a@b` is rejected with a unique-constraint
violation: the probe finds the document's own index entry.  (The
downstream `updateDefaultIndex` DOES remove the old id before its own
uniqueness check, which shows the early probe is a slip, not intent.) -/
theorem c4_update_same_unique_value_rejected :
    update uvStoreReg "users" "d1" [("email", .str "a@b"), ("name", .str "x")]
      = (uvStoreReg, [("email", .str "a@b"), ("name", .str "x")],
         .error .uniqueViolation) := rfl

/-! ### Claim C7: delete on a missing id -/

/-- Claim C7, amended: `delete` is NOT idempotent.  On a missing id the
unconditional blob delete raises a 404 (blob-not-found) error — the call
fails instead of silently succeeding — and the store is left unchanged. -/
theorem c7_delete_missing_id_errors (st : Store) (coll id : String)
    (c : List (String × Doc)) (hc : alookup st.colls coll = some c)
    (h : alookup c id = none) :
    deleteDoc st coll id = (st, .error .blobNotFound) := by
  have he : ensureColl st coll = st := by
    unfold ensureColl
    rw [hc]
  simp [deleteDoc, he, readDoc, hc, h]

/-- Claim C7, counterexample: deleting an id absent from an existing
collection returns a blob-not-found error, refuting the claimed silent
no-op. -/
theorem c7_counterexample_delete_not_silent :
    deleteDoc emptyUsersStore "users" "ghost"
      = (emptyUsersStore, .error .blobNotFound) := rfl

/-- Witness for the amended Claim C7 at a store holding one unrelated
document. -/
theorem c7_delete_missing_id_witness :
    deleteDoc uvStoreFresh "users" "ghost"
      = (uvStoreFresh, .error .blobNotFound) :=
  c7_delete_missing_id_errors uvStoreFresh "users" "ghost" _ rfl rfl

/-! ### Claims C5, C6, C10: read/update on absent ids, atomicity, caller mutation -/

/-- Claim C5, counterexample: with an existing empty collection, `read` of
an absent id returns null (`none`) — a value, not a NotFound error — and
`update` of an absent id SUCCEEDS and writes the document (upsert), rather
than failing with NotFound and writing nothing. -/
theorem c5_counterexample_no_notfound :
    readDoc emptyUsersStore "users" "missing" = none ∧
    (update emptyUsersStore "users" "missing" [("name", .str "x")]).2.2 = .ok () ∧
    readDoc (update emptyUsersStore "users" "missing" [("name", .str "x")]).1
      "users" "missing" = some [("name", .str "x"), ("id", .str "missing")] :=
  ⟨rfl, rfl, rfl⟩

/-- Claim C5, amended: for an absent id, `read` returns null without
raising, and `update` — when the unique probe passes and the collection
has no index blobs — succeeds and CREATES the document with the id
assigned, i.e. update is an upsert, not a NotFound failure. -/
theorem c5_read_none_update_upserts (st : Store) (coll id : String) (data : Doc)
    (h1 : readDoc st coll id = none)
    (h2 : checkUniqueConstraints st coll data = .ok ())
    (h3 : collIndexEntries st coll = []) :
    readDoc st coll id = none ∧
    (update st coll id data).2.2 = .ok () ∧
    readDoc (update st coll id data).1 coll id
      = some (aset data "id" (.str id)) := by
  have h2' : checkUniqueConstraints (ensureColl st coll) coll data = .ok () := by
    rw [checkUnique_ensureColl]
    exact h2
  have h3' : collIndexEntries
      (setDoc (ensureColl st coll) coll id (aset data "id" (.str id))) coll = [] := by
    rw [collIndexEntries_congr _ st]
    · exact h3
    · rw [setDoc_indexes, ensureColl_indexes]
  have hu : update st coll id data
      = (setDoc (ensureColl st coll) coll id (aset data "id" (.str id)),
         aset data "id" (.str id), .ok ()) := by
    simp only [update, h2', updateIndexes, h3', List.map_nil, updateIndexesLoop]
  refine ⟨h1, ?_, ?_⟩
  · rw [hu]
  · rw [hu]
    exact read_setDoc _ _ _ _

/-- Witness for the amended Claim C5 at the concrete empty collection. -/
theorem c5_read_none_update_upserts_witness :
    readDoc emptyUsersStore "users" "w1" = none ∧
    (update emptyUsersStore "users" "w1" [("age", .num 7)]).2.2 = .ok () ∧
    readDoc (update emptyUsersStore "users" "w1" [("age", .num 7)]).1 "users" "w1"
      = some [("age", .num 7), ("id", .str "w1")] :=
  c5_read_none_update_upserts emptyUsersStore "users" "w1" [("age", .num 7)]
    rfl rfl rfl

/-- Claim C6, counterexample: in a fresh process (empty in-process
constraint cache) a `create` that duplicates an existing unique email
passes the pre-write probe, WRITES the document blob, and only then fails
inside `updateDefaultIndex` — the call errors but the new blob stays
committed, a partially committed write-path failure. -/
theorem c6_counterexample_partial_commit :
    (create uvStoreFresh "users" [("email", .str "a@b")] none "d2").2.2
      = .error .uniqueViolation ∧
    readDoc (create uvStoreFresh "users" [("email", .str "a@b")] none "d2").1
      "users" "d2" = some [("email", .str "a@b"), ("id", .str "d2")] :=
  ⟨rfl, rfl⟩

/-- Claim C6, amended: a failure raised by the PRE-write uniqueness probe
leaves the store completely unchanged, but a uniqueness violation detected
during post-write index maintenance (as when the constraint is absent from
the in-process cache) surfaces only after the document blob has been
written, so such failures can be partially committed. -/
theorem c6_precheck_failure_leaves_store_unchanged (st : Store) (coll : String)
    (data : Doc) (existingId : Option String) (freshId : String) (e : DbErr)
    (h : checkUniqueConstraints st coll
      (aset data "id" (.str (resolveId existingId freshId))) = .error e) :
    create st coll data existingId freshId
      = (st, aset data "id" (.str (resolveId existingId freshId)), .error e) := by
  simp only [create, h]

/-- Witness for the amended Claim C6: in the process that registered the
constraint, a duplicate `create` is rejected by the pre-write probe with
the store unchanged. -/
theorem c6_precheck_failure_witness :
    create uvStoreReg "users" [("email", .str "a@b")] none "d2"
      = (uvStoreReg, [("email", .str "a@b"), ("id", .str "d2")],
         .error .uniqueViolation) :=
  c6_precheck_failure_leaves_store_unchanged uvStoreReg "users"
    [("email", .str "a@b")] none "d2" .uniqueViolation rfl

/-- Claim C10, confirmed: `create` assigns the resolved id into the
caller's data object BEFORE the uniqueness probe, so when the probe aborts
the call, the caller-visible data still carries the mutation (and the
error is returned alongside it). -/
theorem c10_create_mutates_data_before_check (st : Store) (coll : String)
    (data : Doc) (existingId : Option String) (freshId : String) (e : DbErr)
    (h : checkUniqueConstraints st coll
      (aset data "id" (.str (resolveId existingId freshId))) = .error e) :
    (create st coll data existingId freshId).2.1
      = aset data "id" (.str (resolveId existingId freshId)) ∧
    (create st coll data existingId freshId).2.2 = .error e := by
  simp [create, h]

/-- Witness for Claim C10: the duplicate `create` aborts with a unique
violation, yet the caller's data object has gained the minted id. -/
theorem c10_create_mutates_witness :
    (create uvStoreReg "users" [("email", .str "a@b"), ("name", .str "Jim")]
        none "d9").2.1
      = [("email", .str "a@b"), ("name", .str "Jim"), ("id", .str "d9")] ∧
    (create uvStoreReg "users" [("email", .str "a@b"), ("name", .str "Jim")]
        none "d9").2.2 = .error .uniqueViolation :=
  c10_create_mutates_data_before_check uvStoreReg "users"
    [("email", .str "a@b"), ("name", .str "Jim")] none "d9" .uniqueViolation rfl

/-! ### Facts about decimal printing and parsing (for Claim C1) -/

lemma natDigsAux_acc (fuel : Nat) : ∀ (n : Nat) (acc : List Char),
    natDigsAux fuel n acc = natDigsAux fuel n [] ++ acc := by
  induction fuel with
  | zero => intro n acc; rfl
  | succ f ih =>
    intro n acc
    simp only [natDigsAux]
    by_cases h : n / 10 = 0
    · simp [h]
    · simp only [if_neg h]
      rw [ih (n / 10) (digChar (n % 10) :: acc), ih (n / 10) [digChar (n % 10)]]
      simp

lemma natDigsAux_fuel (n : Nat) : ∀ f1 f2, n < f1 → n < f2 →
    natDigsAux f1 n [] = natDigsAux f2 n [] := by
  induction n using Nat.strong_induction_on with
  | _ n ih =>
    intro f1 f2 h1 h2
    obtain ⟨a, rfl⟩ : ∃ a, f1 = a + 1 := ⟨f1 - 1, by omega⟩
    obtain ⟨b, rfl⟩ : ∃ b, f2 = b + 1 := ⟨f2 - 1, by omega⟩
    simp only [natDigsAux]
    by_cases h : n / 10 = 0
    · simp [h]
    · simp only [if_neg h]
      rw [natDigsAux_acc a, natDigsAux_acc b,
        ih (n / 10) (by omega) a b (by omega) (by omega)]

lemma natDigs_step (n : Nat) :
    natDigs n = if n < 10 then [digChar n]
      else natDigs (n / 10) ++ [digChar (n % 10)] := by
  unfold natDigs
  simp only [natDigsAux]
  by_cases h : n / 10 = 0
  · have h10 : n < 10 := by omega
    have hm : n % 10 = n := by omega
    simp [h, h10, hm]
  · have h10 : ¬(n < 10) := by omega
    simp only [if_neg h, if_neg h10]
    rw [natDigsAux_acc n]
    congr 1
    exact natDigsAux_fuel (n / 10) n (n / 10 + 1) (by omega) (by omega)

lemma digChar_isDigit (d : Nat) (h : d < 10) : isDigitCh (digChar d) = true := by
  interval_cases d <;> decide

lemma natDigs_all_digits (n : Nat) : ∀ c ∈ natDigs n, isDigitCh c = true := by
  induction n using Nat.strong_induction_on with
  | _ n ih =>
    rw [natDigs_step n]
    by_cases h : n < 10
    · rw [if_pos h]
      intro c hc
      rw [List.mem_singleton] at hc
      subst hc
      exact digChar_isDigit n h
    · rw [if_neg h]
      intro c hc
      rcases List.mem_append.mp hc with h1 | h2
      · exact ih (n / 10) (by omega) c h1
      · rw [List.mem_singleton] at h2
        subst h2
        exact digChar_isDigit _ (by omega)

lemma natDigs_ne_nil (n : Nat) : natDigs n ≠ [] := by
  rw [natDigs_step]
  by_cases h : n < 10 <;> simp [h]

lemma parseNum_append_one (xs : List Char) (c : Char) :
    parseNum (xs ++ [c]) = parseNum xs * 10 + (c.toNat - 48) := by
  simp [parseNum, List.foldl_append]

lemma charToNat_ofNat (m : Nat) (h : m < 55296) : (Char.ofNat m).toNat = m := by
  have hv : Nat.isValidChar m := Or.inl (by omega)
  simp [Char.ofNat, hv, Char.ofNatAux, Char.toNat, UInt32.ofNat', UInt32.toNat]

lemma parseNum_natDigs (n : Nat) : parseNum (natDigs n) = n := by
  induction n using Nat.strong_induction_on with
  | _ n ih =>
    rw [natDigs_step n]
    by_cases h : n < 10
    · rw [if_pos h]
      simp [parseNum, digChar, charToNat_ofNat (48 + n) (by omega)]
    · rw [if_neg h]
      rw [parseNum_append_one, ih (n / 10) (by omega)]
      rw [digChar, charToNat_ofNat (48 + n % 10) (by omega)]
      omega

lemma intStr_data_nonneg (n : Int) (h : 0 ≤ n) :
    (intStr n).data = natDigs n.toNat := by
  unfold intStr
  rw [if_neg (by omega)]

lemma intStr_data_neg (n : Int) (h : n < 0) :
    (intStr n).data = '-' :: natDigs (-n).toNat := by
  unfold intStr
  rw [if_pos h]

lemma isDigitCh_not_ws (c : Char) (h : isDigitCh c = true) :
    jsWhitespace c = false := by
  by_contra hw
  rw [Bool.not_eq_false] at hw
  have hm : c ∈ jsWsChars := by
    simpa [jsWhitespace] using hw
  fin_cases hm <;> exact absurd h (by decide)

lemma isDigitCh_ne_minus (c : Char) (h : isDigitCh c = true) : c ≠ '-' := by
  rintro rfl
  exact absurd h (by decide)

lemma isDigitCh_ne_plus (c : Char) (h : isDigitCh c = true) : c ≠ '+' := by
  rintro rfl
  exact absurd h (by decide)

lemma dropWhile_no_ws (l : List Char) (h : ∀ c ∈ l, jsWhitespace c = false) :
    l.dropWhile jsWhitespace = l := by
  cases l with
  | nil => rfl
  | cons c cs => simp [List.dropWhile_cons, h c (by simp)]

lemma jsTrim_no_ws (l : List Char) (h : ∀ c ∈ l, jsWhitespace c = false) :
    jsTrim l = l := by
  unfold jsTrim
  rw [dropWhile_no_ws l h,
    dropWhile_no_ws l.reverse (fun c hc => h c (List.mem_reverse.mp hc)),
    List.reverse_reverse]

lemma parseSigned_digits (l : List Char) (hne : l ≠ [])
    (hd : ∀ c ∈ l, isDigitCh c = true) :
    parseSigned l = some (parseNum l : Int) := by
  match l, hne with
  | c :: cs, _ =>
    have hc : isDigitCh c = true := hd c (by simp)
    have h1 : c ≠ '-' := isDigitCh_ne_minus c hc
    have h2 : c ≠ '+' := isDigitCh_ne_plus c hc
    have hall : (c :: cs).all isDigitCh = true := List.all_eq_true.mpr hd
    simp [parseSigned, h1, h2, hall]

lemma jsStrToInt_intStr (n : Int) : jsStrToInt (intStr n) = some n := by
  unfold jsStrToInt
  by_cases hn : n < 0
  · rw [intStr_data_neg n hn]
    have hnows : ∀ c ∈ '-' :: natDigs (-n).toNat, jsWhitespace c = false := by
      intro c hc
      rcases List.mem_cons.mp hc with rfl | hc2
      · decide
      · exact isDigitCh_not_ws c (natDigs_all_digits _ c hc2)
    rw [jsTrim_no_ws _ hnows]
    have hne := natDigs_ne_nil (-n).toNat
    have hall : (natDigs (-n).toNat).all isDigitCh = true :=
      List.all_eq_true.mpr (natDigs_all_digits _)
    simp only [parseSigned, hne, hall, parseNum_natDigs, ne_eq,
      not_false_eq_true, and_self, if_pos]
    congr 1
    omega
  · rw [intStr_data_nonneg n (by omega)]
    rw [jsTrim_no_ws _ (fun c hc => isDigitCh_not_ws c (natDigs_all_digits _ c hc))]
    rw [parseSigned_digits _ (natDigs_ne_nil _) (natDigs_all_digits _),
      parseNum_natDigs]
    congr 1
    omega

lemma isoMatch_true_length (s : String) (h : isoMatch s = true) :
    s.data.length = 24 := by
  unfold isoMatch at h
  rw [Bool.and_eq_true] at h
  simpa using h.1

lemma isoMatch_pos (s : String) (h : isoMatch s = true) (i : Nat) (hi : i < 24) :
    isoPosOk i (s.data.getD i ' ') = true := by
  unfold isoMatch at h
  rw [Bool.and_eq_true] at h
  exact List.all_eq_true.mp h.2 i (List.mem_range.mpr hi)

lemma intStr_not_iso (n : Int) : isoMatch (intStr n) = false := by
  by_contra hiso
  rw [Bool.not_eq_false] at hiso
  have hlen := isoMatch_true_length _ hiso
  have hpos := isoMatch_pos _ hiso 4 (by omega)
  simp only [isoPosOk, beq_self_eq_true, Bool.true_or, if_pos, beq_iff_eq] at hpos
  by_cases hn : n < 0
  · rw [intStr_data_neg n hn] at hlen hpos
    have h3 : ('-' :: natDigs (-n).toNat).getD 4 ' '
        = (natDigs (-n).toNat).getD 3 ' ' := rfl
    rw [h3] at hpos
    have hlt : 3 < (natDigs (-n).toNat).length := by
      simp at hlen
      omega
    have hmem : (natDigs (-n).toNat).getD 3 ' ' ∈ natDigs (-n).toNat := by
      rw [List.getD_eq_getElem _ _ hlt]
      exact List.getElem_mem hlt
    exact isDigitCh_ne_minus _ (natDigs_all_digits _ _ hmem) hpos
  · rw [intStr_data_nonneg n (by omega)] at hlen hpos
    have hlt : 4 < (natDigs n.toNat).length := by omega
    have hmem : (natDigs n.toNat).getD 4 ' ' ∈ natDigs n.toNat := by
      rw [List.getD_eq_getElem _ _ hlt]
      exact List.getElem_mem hlt
    exact isDigitCh_ne_minus _ (natDigs_all_digits _ _ hmem) hpos

/-! ### Type-homogeneity side conditions for Claim C1 -/

/-- Whether a stored value is a number. -/
def isNumPrim : JSPrim → Bool
  | .num _ => true
  | .str _ => false

/-- Whether a stored value is a string outside the ISO date format. -/
def isPlainStrPrim : JSPrim → Bool
  | .str s => !(isoMatch s)
  | .num _ => false

/-- The condition uses one of the six claimed operators with integer
payload(s). -/
def condIntsOk (c : Cond) : Bool :=
  match c.operator, c.value with
  | .EQ, .prim (.num _) => true
  | .GT, .prim (.num _) => true
  | .LT, .prim (.num _) => true
  | .GTE, .prim (.num _) => true
  | .LTE, .prim (.num _) => true
  | .BETWEEN, .arr [.num _, .num _] => true
  | _, _ => false

/-- The condition uses one of the six claimed operators with
non-ISO-format string payload(s). -/
def condStrsOk (c : Cond) : Bool :=
  match c.operator, c.value with
  | .EQ, .prim (.str t) => !(isoMatch t)
  | .GT, .prim (.str t) => !(isoMatch t)
  | .LT, .prim (.str t) => !(isoMatch t)
  | .GTE, .prim (.str t) => !(isoMatch t)
  | .LTE, .prim (.str t) => !(isoMatch t)
  | .BETWEEN, .arr [.str a, .str b] => !(isoMatch a) && !(isoMatch b)
  | _, _ => false

/-- Every stored value of the field across the committed documents
satisfies the predicate. -/
def docsFieldAll (docs : List (String × Doc)) (f : String)
    (p : JSPrim → Bool) : Bool :=
  docs.all (fun kv =>
    match alookup kv.2 f with
    | some v => p v
    | none => true)

/-- The queried field is type-homogeneous with its condition: stored and
condition values all integers, or all strings outside the ISO date
format. -/
def homogFieldCond (docs : List (String × Doc)) (f : String) (c : Cond) : Bool :=
  (docsFieldAll docs f isNumPrim && condIntsOk c) ||
  (docsFieldAll docs f isPlainStrPrim && condStrsOk c)

/-! ### Evaluation agreement between stored values and index keys -/

lemma alookup_singleton (f : String) (v : JSPrim) :
    alookup [(f, v)] f = some v := by
  simp [alookup]

lemma evalCond_lookup_congr (d1 d2 : Doc) (f : String) (c : Cond)
    (h : alookup d1 f = alookup d2 f) :
    evaluateCondition d1 f c = evaluateCondition d2 f c := by
  unfold evaluateCondition
  rw [h]

lemma toNumJs_intStr (n : Int) : toNumJs (.str (intStr n)) = some n := by
  simp [toNumJs, jsStrToInt_intStr]

lemma evalCond_num (d : Doc) (f : String) (c : Cond) (n : Int)
    (hv : alookup d f = some (.num n)) :
    evaluateCondition d f c
      = applyOp c.operator (.num n) (condValToJsVal c.value) := by
  simp only [evaluateCondition, hv, primToJsVal]

lemma evalCond_str_notIso (d : Doc) (f : String) (c : Cond) (s : String)
    (hv : alookup d f = some (.str s)) (hiso : isoMatch s = false) :
    evaluateCondition d f c
      = applyOp c.operator (.str s) (condValToJsVal c.value) := by
  simp only [evaluateCondition, hv, hiso, Bool.false_eq_true, if_false, primToJsVal]

lemma evalCond_num_strKey (f : String) (n : Int) (c : Cond)
    (hop : c.operator ≠ .EQ) (hc : condIntsOk c = true) :
    evaluateCondition [(f, .str (intStr n))] f c
      = evaluateCondition [(f, .num n)] f c := by
  rw [evalCond_str_notIso _ _ _ _ (alookup_singleton _ _) (intStr_not_iso n),
    evalCond_num _ _ _ _ (alookup_singleton _ _)]
  obtain ⟨op, v⟩ := c
  cases op
  case EQ => exact absurd rfl hop
  case GT =>
    rcases v with (s | m) | xs | _
    · simp [condIntsOk] at hc
    · simp [applyOp, condValToJsVal, primToJsVal, jsGtB, toNumJs_intStr, toNumJs, jsStrToInt_intStr]
    · simp [condIntsOk] at hc
    · simp [condIntsOk] at hc
  case LT =>
    rcases v with (s | m) | xs | _
    · simp [condIntsOk] at hc
    · simp [applyOp, condValToJsVal, primToJsVal, jsLtB, toNumJs_intStr, toNumJs, jsStrToInt_intStr]
    · simp [condIntsOk] at hc
    · simp [condIntsOk] at hc
  case GTE =>
    rcases v with (s | m) | xs | _
    · simp [condIntsOk] at hc
    · simp [applyOp, condValToJsVal, primToJsVal, jsGeB, toNumJs_intStr, toNumJs, jsStrToInt_intStr]
    · simp [condIntsOk] at hc
    · simp [condIntsOk] at hc
  case LTE =>
    rcases v with (s | m) | xs | _
    · simp [condIntsOk] at hc
    · simp [applyOp, condValToJsVal, primToJsVal, jsLeB, toNumJs_intStr, toNumJs, jsStrToInt_intStr]
    · simp [condIntsOk] at hc
    · simp [condIntsOk] at hc
  case IN => simp [condIntsOk] at hc
  case NIN => simp [condIntsOk] at hc
  case BETWEEN =>
    rcases v with p | xs | _
    · simp [condIntsOk] at hc
    · rcases xs with _ | ⟨(sa | ma), xs⟩
      · simp [condIntsOk] at hc
      · simp [condIntsOk] at hc
      rcases xs with _ | ⟨(sb | mb), xs⟩
      · simp [condIntsOk] at hc
      · simp [condIntsOk] at hc
      rcases xs with _ | ⟨cx, xs⟩
      · simp [applyOp, condValToJsVal, primToJsVal, jsIdx, jsGeB, jsLeB,
          toNumJs_intStr, toNumJs, jsStrToInt_intStr]
      · simp [condIntsOk] at hc
    · simp [condIntsOk] at hc

/-! ### Membership facts for the candidate machinery -/

lemma alookup_mem {α : Type} (l : List (String × α)) (k : String) (v : α)
    (h : alookup l k = some v) : (k, v) ∈ l := by
  induction l with
  | nil => simp [alookup] at h
  | cons p rest ih =>
    obtain ⟨a, b⟩ := p
    by_cases hk : a = k
    · subst hk
      have hb : b = v := by simpa [alookup] using h
      subst hb
      exact List.mem_cons_self _ _
    · simp only [alookup, if_neg hk] at h
      exact List.mem_cons_of_mem _ (ih h)

lemma mem_setList_aux (l : List String) : ∀ (acc : List String) (x : String),
    (x ∈ l.foldl (fun acc y => if y ∈ acc then acc else acc ++ [y]) acc)
      ↔ x ∈ acc ∨ x ∈ l := by
  induction l with
  | nil => simp
  | cons y ys ih =>
    intro acc x
    simp only [List.foldl_cons]
    by_cases h : y ∈ acc
    · rw [if_pos h, ih]
      constructor
      · rintro (h1 | h1)
        · exact Or.inl h1
        · exact Or.inr (List.mem_cons_of_mem _ h1)
      · rintro (h1 | h1)
        · exact Or.inl h1
        · rcases List.mem_cons.mp h1 with rfl | h2
          · exact Or.inl h
          · exact Or.inr h2
    · rw [if_neg h, ih]
      simp [List.mem_append, List.mem_cons]
      tauto

lemma mem_setList (l : List String) (x : String) : x ∈ setList l ↔ x ∈ l := by
  unfold setList
  rw [mem_setList_aux]
  simp

lemma mem_sortStrings (l : List String) (x : String) :
    x ∈ sortStrings l ↔ x ∈ l :=
  List.mem_insertionSort _

lemma mem_intersect_fold (rest : List (List String)) :
    ∀ (s : List String) (id : String), id ∈ s → (∀ t ∈ rest, id ∈ t) →
      id ∈ rest.foldl (fun a b => a.filter (fun x => x ∈ b)) s := by
  induction rest with
  | nil =>
    intro s id h _
    exact h
  | cons t ts ih =>
    intro s id hs hall
    simp only [List.foldl_cons]
    apply ih
    · rw [List.mem_filter]
      exact ⟨hs, by simp [hall t (by simp)]⟩
    · intro u hu
      exact hall u (by simp [hu])

lemma mem_intersectSets (sets : List (List String)) (id : String)
    (hne : sets ≠ []) (h : ∀ s ∈ sets, id ∈ s) : id ∈ intersectSets sets := by
  match sets, hne with
  | s :: rest, _ =>
    exact mem_intersect_fold rest s id (h s (by simp))
      (fun t ht => h t (by simp [ht]))

lemma alookup_keymap (keys : List String) (g : String → List String)
    (k : String) (hk : k ∈ keys) :
    alookup (keys.map (fun x => (x, g x))) k = some (g k) := by
  induction keys with
  | nil => simp at hk
  | cons y ys ih =>
    rcases List.mem_cons.mp hk with rfl | h2
    · simp [alookup]
    · by_cases hy : y = k
      · subst hy
        simp [alookup]
      · simp only [List.map_cons, alookup, if_neg hy]
        exact ih h2

lemma mem_keyIds (docs : List (String × Doc)) (f : String) (id : String)
    (d : Doc) (v : JSPrim) (hd : (id, d) ∈ docs) (hv : alookup d f = some v) :
    id ∈ keyIds docs f (jsToString v) := by
  unfold keyIds
  rw [List.mem_map]
  refine ⟨(id, d), ?_, rfl⟩
  rw [List.mem_filter]
  exact ⟨hd, by simp [hv]⟩

lemma canonicalIndex_lookup (docs : List (String × Doc)) (f : String)
    (id : String) (d : Doc) (v : JSPrim)
    (hd : (id, d) ∈ docs) (hv : alookup d f = some v) :
    alookup (canonicalIndex docs f) (jsToString v)
      = some (keyIds docs f (jsToString v)) := by
  unfold canonicalIndex
  apply alookup_keymap
  rw [mem_setList, List.mem_filterMap]
  exact ⟨(id, d), hd, by rw [hv]; rfl⟩

lemma mem_lookupLoop (ixList : List (String × List String)) (f : String)
    (c : Cond) (id : String) :
    (id ∈ ixList.foldr (fun kv acc =>
        if evaluateCondition [(f, .str kv.1)] f c then kv.2 ++ acc else acc) [])
      ↔ ∃ kv ∈ ixList,
          evaluateCondition [(f, .str kv.1)] f c = true ∧ id ∈ kv.2 := by
  induction ixList with
  | nil => simp
  | cons kv rest ih =>
    simp only [List.foldr_cons]
    by_cases h : evaluateCondition [(f, .str kv.1)] f c
    · rw [if_pos h]
      simp only [List.mem_append, ih, List.mem_cons]
      constructor
      · rintro (h1 | ⟨kw, hkw, he, hm⟩)
        · exact ⟨kv, Or.inl rfl, h, h1⟩
        · exact ⟨kw, Or.inr hkw, he, hm⟩
      · rintro ⟨kw, hkw | hkw, he, hm⟩
        · subst hkw
          exact Or.inl hm
        · exact Or.inr ⟨kw, hkw, he, hm⟩
    · rw [if_neg h]
      rw [ih]
      constructor
      · rintro ⟨kw, hkw, he, hm⟩
        exact ⟨kw, List.mem_cons_of_mem _ hkw, he, hm⟩
      · rintro ⟨kw, hkw, he, hm⟩
        rcases List.mem_cons.mp hkw with rfl | h2
        · exact absurd he h
        · exact ⟨kw, h2, he, hm⟩

/-! ### Completeness of the index probes under type homogeneity -/

lemma docsFieldAll_value (docs : List (String × Doc)) (f : String)
    (p : JSPrim → Bool) (h : docsFieldAll docs f p = true)
    (id : String) (d : Doc) (v : JSPrim) (hd : (id, d) ∈ docs)
    (hv : alookup d f = some v) : p v = true := by
  unfold docsFieldAll at h
  have h2 := List.all_eq_true.mp h (id, d) hd
  simp only [hv] at h2
  exact h2

lemma isNumPrim_elim (v : JSPrim) (h : isNumPrim v = true) :
    ∃ n, v = .num n := by
  cases v with
  | str s => simp [isNumPrim] at h
  | num n => exact ⟨n, rfl⟩

lemma isPlainStrPrim_elim (v : JSPrim) (h : isPlainStrPrim v = true) :
    ∃ s, v = .str s ∧ isoMatch s = false := by
  cases v with
  | str s =>
    refine ⟨s, rfl, ?_⟩
    simpa [isPlainStrPrim] using h
  | num n => simp [isPlainStrPrim] at h

lemma condIntsOk_EQ (c : Cond) (hop : c.operator = .EQ)
    (h : condIntsOk c = true) : ∃ x, c.value = .prim (.num x) := by
  obtain ⟨op, v⟩ := c
  simp only at hop
  subst hop
  rcases v with (s | m) | xs | _
  · simp [condIntsOk] at h
  · exact ⟨m, rfl⟩
  · simp [condIntsOk] at h
  · simp [condIntsOk] at h

lemma condStrsOk_EQ (c : Cond) (hop : c.operator = .EQ)
    (h : condStrsOk c = true) :
    ∃ t, c.value = .prim (.str t) ∧ isoMatch t = false := by
  obtain ⟨op, v⟩ := c
  simp only at hop
  subst hop
  rcases v with (s | m) | xs | _
  · refine ⟨s, rfl, ?_⟩
    simpa [condStrsOk] using h
  · simp [condStrsOk] at h
  · simp [condStrsOk] at h
  · simp [condStrsOk] at h

lemma evalCond_some (d : Doc) (f : String) (c : Cond)
    (heval : evaluateCondition d f c = true) : ∃ v, alookup d f = some v := by
  rcases hval : alookup d f with _ | v
  · unfold evaluateCondition at heval
    rw [hval] at heval
    exact absurd heval (by simp)
  · exact ⟨v, rfl⟩

lemma lookupIndexIds_complete (st : Store) (coll f : String) (c : Cond)
    (docs : List (String × Doc)) (ixd : IndexData)
    (hix : alookup st.indexes (coll ++ "_" ++ f) = some ixd)
    (hcanon : ixd.index = canonicalIndex docs f)
    (hhom : homogFieldCond docs f c = true)
    (id : String) (d : Doc) (hd : (id, d) ∈ docs)
    (heval : evaluateCondition d f c = true) :
    ∃ ids, lookupIndexIds st coll f c = some ids ∧ id ∈ ids := by
  obtain ⟨v, hv⟩ := evalCond_some d f c heval
  unfold homogFieldCond at hhom
  rw [Bool.or_eq_true, Bool.and_eq_true, Bool.and_eq_true] at hhom
  simp only [lookupIndexIds, hix]
  by_cases hop : c.operator = .EQ
  · rw [if_pos hop]
    refine ⟨_, rfl, ?_⟩
    rw [hcanon]
    rcases hhom with ⟨hdn, hcn⟩ | ⟨hds, hcs⟩
    · obtain ⟨n, rfl⟩ := isNumPrim_elim v (docsFieldAll_value docs f _ hdn id d v hd hv)
      obtain ⟨x, hcv⟩ := condIntsOk_EQ c hop hcn
      have hx : n = x := by
        rw [evalCond_num d f c n hv, hop, hcv] at heval
        simpa [applyOp, condValToJsVal, primToJsVal, strictEq] using heval
      subst hx
      rw [hcv]
      rw [show condValKey (.prim (.num n)) = jsToString (.num n) from rfl]
      rw [canonicalIndex_lookup docs f id d _ hd hv]
      simpa using mem_keyIds docs f id d _ hd hv
    · obtain ⟨s, rfl, hsiso⟩ :=
        isPlainStrPrim_elim v (docsFieldAll_value docs f _ hds id d v hd hv)
      obtain ⟨t, hcv, htiso⟩ := condStrsOk_EQ c hop hcs
      have hx : s = t := by
        rw [evalCond_str_notIso d f c s hv hsiso, hop, hcv] at heval
        simpa [applyOp, condValToJsVal, primToJsVal, strictEq] using heval
      subst hx
      rw [hcv]
      rw [show condValKey (.prim (.str s)) = jsToString (.str s) from rfl]
      rw [canonicalIndex_lookup docs f id d _ hd hv]
      simpa using mem_keyIds docs f id d _ hd hv
  · rw [if_neg hop]
    refine ⟨_, rfl, ?_⟩
    rw [hcanon, mem_lookupLoop]
    refine ⟨(jsToString v, keyIds docs f (jsToString v)), ?_, ?_,
      mem_keyIds docs f id d v hd hv⟩
    · unfold canonicalIndex
      rw [List.mem_map]
      refine ⟨jsToString v, ?_, rfl⟩
      rw [mem_setList, List.mem_filterMap]
      exact ⟨(id, d), hd, by rw [hv]; rfl⟩
    · rcases hhom with ⟨hdn, hcn⟩ | ⟨hds, hcs⟩
      · obtain ⟨n, rfl⟩ :=
          isNumPrim_elim v (docsFieldAll_value docs f _ hdn id d v hd hv)
        rw [show jsToString (JSPrim.num n) = intStr n from rfl]
        rw [evalCond_num_strKey f n c hop hcn]
        rw [evalCond_lookup_congr [(f, .num n)] d f c
          (by rw [alookup_singleton, hv])]
        exact heval
      · obtain ⟨s, rfl, hsiso⟩ :=
          isPlainStrPrim_elim v (docsFieldAll_value docs f _ hds id d v hd hv)
        rw [show jsToString (JSPrim.str s) = s from rfl]
        rw [evalCond_lookup_congr [(f, .str s)] d f c
          (by rw [alookup_singleton, hv])]
        exact heval

lemma combineLoop_complete (st : Store) (coll : String) (id : String) :
    ∀ (sq' : List (String × Cond)) (sets : List (List String)),
      (∀ s ∈ sets, id ∈ s) →
      (∀ fc ∈ sq', ∀ ids, lookupIndexIds st coll fc.1 fc.2 = some ids → id ∈ ids) →
      ∀ S, combineLoop st coll sq' sets = some S → id ∈ S := by
  intro sq'
  induction sq' with
  | nil =>
    intro sets hsets _ S hS
    unfold combineLoop at hS
    rcases he : sets.isEmpty with _ | _
    · rw [he] at hS
      simp only [Bool.false_eq_true, if_false, Option.some.injEq] at hS
      subst hS
      exact mem_intersectSets sets id (by simpa using he) hsets
    · rw [he] at hS
      simp at hS
  | cons fc rest ih =>
    intro sets hsets hrec S hS
    obtain ⟨f, c⟩ := fc
    cases hl : lookupIndexIds st coll f c with
    | none =>
      simp only [combineLoop, hl] at hS
      rcases he : sets.isEmpty with _ | _
      · rw [he] at hS
        simp only [Bool.false_eq_true, if_false, Option.some.injEq] at hS
        subst hS
        exact mem_intersectSets sets id (by simpa using he) hsets
      · rw [he] at hS
        simp at hS
    | some ids =>
      simp only [combineLoop, hl] at hS
      refine ih (sets ++ [ids]) ?_ ?_ S hS
      · intro s hs
        rcases List.mem_append.mp hs with h1 | h2
        · exact hsets s h1
        · rw [List.mem_singleton] at h2
          rw [h2]
          exact hrec (f, c) (by simp) ids hl
      · intro gc hgc ids2 hids2
        exact hrec gc (List.mem_cons_of_mem _ hgc) ids2 hids2

lemma candidateIdsOf_complete (st : Store) (coll : String)
    (sq : List (String × Cond)) (docs : List (String × Doc))
    (hfields : ∀ fc ∈ sq, ∃ ixd : IndexData,
      alookup st.indexes (coll ++ "_" ++ fc.1) = some ixd ∧
      ixd.index = canonicalIndex docs fc.1)
    (hhom : ∀ fc ∈ sq, homogFieldCond docs fc.1 fc.2 = true)
    (id : String) (d : Doc) (hd : (id, d) ∈ docs)
    (hmatch : matchesStructured sq d = true)
    (S : List String) (hS : candidateIdsOf st coll sq = some S) : id ∈ S := by
  have hrec : ∀ fc ∈ sq, ∀ ids,
      lookupIndexIds st coll fc.1 fc.2 = some ids → id ∈ ids := by
    intro fc hfc ids hids
    obtain ⟨ixd, hix, hcanon⟩ := hfields fc hfc
    have heval : evaluateCondition d fc.1 fc.2 = true :=
      List.all_eq_true.mp hmatch fc hfc
    obtain ⟨ids2, hids2, hmem⟩ :=
      lookupIndexIds_complete st coll fc.1 fc.2 docs ixd hix hcanon
        (hhom fc hfc) id d hd heval
    rw [hids] at hids2
    have : ids = ids2 := by injection hids2
    subst this
    exact hmem
  unfold candidateIdsOf at hS
  split at hS
  · exact absurd hS (by simp)
  · rename_i b hb
    split at hS
    · split at hS
      · exact absurd hS (by simp)
      · rename_i f frest hf
        split at hS
        · rename_i c hc
          exact hrec (f, c) (alookup_mem sq f c hc) S hS
        · exact absurd hS (by simp)
    · exact combineLoop_complete st coll id sq [] (by simp) hrec S hS

lemma mem_finishCandidates_default (st : Store) (coll : String)
    (sq : List (String × Cond)) (cand : List String) (d : Doc) :
    d ∈ finishCandidates st coll sq cand ⟨none, 0, none⟩
      ↔ ∃ id, id ∈ cand ∧ readDoc st coll id = some d ∧
          matchesStructured sq d = true := by
  unfold finishCandidates
  simp only [List.drop_zero, List.mem_filter, List.mem_filterMap,
    mem_sortStrings, mem_setList]
  tauto

lemma readDoc_eq (st : Store) (coll : String) (docs : List (String × Doc))
    (hdocs : alookup st.colls coll = some docs) (id : String) :
    readDoc st coll id = alookup docs id := by
  unfold readDoc
  rw [hdocs]
  rfl

/-- Claim C1, amended: over a committed state whose single-field index
blobs hold exactly the canonical projection of the documents, a query all
of whose fields are indexed and whose operators come from EQ, GT, GTE, LT,
LTE, BETWEEN returns the same SET of documents in index-probe mode as in
full-scan mode, PROVIDED each queried field is type-homogeneous with its
condition: all stored and condition values integers, or all of them
strings outside the ISO-8601 timestamp format.  (Mixed types break the
probe, which compares the stringified index key lexicographically while
the full scan compares the raw value numerically — see the counterexample;
ISO-format strings are normalized to epoch milliseconds by the in-memory
evaluator but matched byte-wise by the EQ index probe, where aliases of
the same instant, such as hour 24:00, diverge.) -/
theorem c1_tagFilter_eq_fullScan_of_homogeneous
    (st : Store) (coll : String) (sq : List (String × Cond))
    (docs : List (String × Doc))
    (hdocs : alookup st.colls coll = some docs)
    (hsq : sq ≠ [])
    (hfields : ∀ fc ∈ sq, ∃ ixd : IndexData,
      alookup st.indexes (coll ++ "_" ++ fc.1) = some ixd ∧
      ixd.index = canonicalIndex docs fc.1)
    (hhom : ∀ fc ∈ sq, homogFieldCond docs fc.1 fc.2 = true)
    (d : Doc) :
    (d ∈ findStructured st coll sq ⟨none, 0, none⟩)
      ↔ (d ∈ fullScanFind st coll sq ⟨none, 0, none⟩) := by
  unfold findStructured fullScanFind
  rw [if_neg (by simp [hsq])]
  rcases hcand : candidateIdsOf st coll sq with _ | S
  · simp
  · simp only [Option.getD_some]
    rw [mem_finishCandidates_default, mem_finishCandidates_default]
    constructor
    · rintro ⟨id, hid, hread, hm⟩
      refine ⟨id, ?_, hread, hm⟩
      rw [readDoc_eq st coll docs hdocs] at hread
      unfold fullCollectionScan
      rw [hdocs]
      exact List.mem_map.mpr ⟨(id, d), alookup_mem docs id d hread, rfl⟩
    · rintro ⟨id, hid, hread, hm⟩
      refine ⟨id, ?_, hread, hm⟩
      rw [readDoc_eq st coll docs hdocs] at hread
      exact candidateIdsOf_complete st coll sq docs hfields hhom id d
        (alookup_mem docs id d hread) hm S hcand

/-- Committed documents for the Claim C1 scenarios. -/
def c1Docs : List (String × Doc) :=
  [("d1", [("age", .num 25), ("id", .str "d1")]),
   ("d2", [("age", .num 30), ("id", .str "d2")])]

/-- A committed state with the canonical single-field index on `age`. -/
def c1Store : Store :=
  ⟨[("users", c1Docs)],
   [("users_age", ⟨.dflt, .one "age", false, canonicalIndex c1Docs "age"⟩)],
   []⟩

/-- The query `{ age: { $gte: 30 } }`, structured. -/
def c1Sq : List (String × Cond) := [("age", ⟨.GTE, .prim (.num 30)⟩)]

/-- Witness for the amended Claim C1: on an integer-homogeneous range
query over a canonically indexed committed state, the probe and the scan
agree (instantiated at the age-30 document). -/
theorem c1_tagFilter_eq_fullScan_witness :
    ([("age", JSPrim.num 30), ("id", JSPrim.str "d2")]
        ∈ findStructured c1Store "users" c1Sq ⟨none, 0, none⟩)
      ↔ ([("age", JSPrim.num 30), ("id", JSPrim.str "d2")]
        ∈ fullScanFind c1Store "users" c1Sq ⟨none, 0, none⟩) :=
  c1_tagFilter_eq_fullScan_of_homogeneous c1Store "users" c1Sq c1Docs rfl
    (by decide)
    (fun fc hfc => by
      simp only [c1Sq, List.mem_singleton] at hfc
      subst hfc
      exact ⟨_, rfl, rfl⟩)
    (fun fc hfc => by
      simp only [c1Sq, List.mem_singleton] at hfc
      subst hfc
      decide)
    [("age", JSPrim.num 30), ("id", JSPrim.str "d2")]

/-- Committed documents for the Claim C1 counterexample. -/
def c1xDocs : List (String × Doc) :=
  [("d1", [("age", .num 30), ("id", .str "d1")])]

/-- The counterexample state: canonical index on `age`, one document with
the number 30. -/
def c1xStore : Store :=
  ⟨[("users", c1xDocs)],
   [("users_age", ⟨.dflt, .one "age", false, canonicalIndex c1xDocs "age"⟩)],
   []⟩

/-- The query `{ age: { $gt: "4" } }` — every field indexed, operator GT —
but with a STRING condition value against numeric stored values. -/
def c1xSq : List (String × Cond) := [("age", ⟨.GT, .prim (.str "4")⟩)]

/-- Claim C1, counterexample: for `{ age: { $gt: "4" } }` over a document
`{ age: 30 }` with a canonical (fully consistent) index on `age`, the
full-scan mode returns the document (30 > ToNumber("4") = 4 numerically)
while the index-probe mode compares the stringified key "30" with "4"
lexicographically ("30" < "4") and returns nothing — the two execution
modes return different sets although every queried field is indexed and
the operator is among the six claimed ones. -/
theorem c1_counterexample_mixed_types :
    ([("age", JSPrim.num 30), ("id", JSPrim.str "d1")]
        ∈ fullScanFind c1xStore "users" c1xSq ⟨none, 0, none⟩) ∧
    ¬ ([("age", JSPrim.num 30), ("id", JSPrim.str "d1")]
        ∈ findStructured c1xStore "users" c1xSq ⟨none, 0, none⟩) := by
  decide

/-! ### Claim C8: pagination in mixed index/in-memory mode -/

/-- Claim C8, amended: `find` applies offset and limit to the sorted,
deduplicated PRE-filter candidate ids (the indexed narrowing, or the full
scan when no index is usable); the returned page is exactly the
in-memory-filtered subset of that window.  Every returned document does
satisfy the whole predicate, but matching documents whose ids fall outside
the pre-filter window are omitted, so pages can be short or empty even
when more matches exist — the result is NOT the [offset, offset+limit)
slice of the fully filtered sequence. -/
theorem c8_find_window_prefilter_characterization
    (st : Store) (coll : String) (sq : List (String × Cond))
    (o l : Nat) (d : Doc) (hsq : sq ≠ []) :
    (d ∈ findStructured st coll sq ⟨some l, o, none⟩)
      ↔ ∃ id, id ∈ ((sortStrings (setList
            ((candidateIdsOf st coll sq).getD (fullCollectionScan st coll)))).drop o).take l
          ∧ readDoc st coll id = some d ∧ matchesStructured sq d = true := by
  unfold findStructured
  rw [if_neg (by simp [hsq])]
  unfold finishCandidates
  simp only [List.mem_filter, List.mem_filterMap]
  tauto

/-- Committed documents for the Claim C8 scenario: two documents with the
indexed age 30, of which only the second has the non-indexed profession
"Eng". -/
def c8Docs : List (String × Doc) :=
  [("d1", [("age", .num 30), ("prof", .str "Des"), ("id", .str "d1")]),
   ("d2", [("age", .num 30), ("prof", .str "Eng"), ("id", .str "d2")])]

/-- The Claim C8 state: canonical index on `age` only. -/
def c8Store : Store :=
  ⟨[("users", c8Docs)],
   [("users_age", ⟨.dflt, .one "age", false, canonicalIndex c8Docs "age"⟩)],
   []⟩

/-- The mixed query `{ age: 30, prof: "Eng" }`, structured: `age` is
indexed, `prof` is not. -/
def c8Sq : List (String × Cond) :=
  [("age", ⟨.EQ, .prim (.num 30)⟩), ("prof", ⟨.EQ, .prim (.str "Eng")⟩)]

/-- Claim C8, counterexample: with offset 0 and limit 1, the claim demands
the first document satisfying the WHOLE predicate (the "Eng" document);
the code instead slices the pre-filter candidate set {d1, d2} first,
fetches only d1, filters it out in memory, and returns an empty page. -/
theorem c8_counterexample_pagination_prefilter :
    findStructured c8Store "users" c8Sq ⟨some 1, 0, none⟩ = [] ∧
    (fullScanFind c8Store "users" c8Sq ⟨none, 0, none⟩).take 1
      = [[("age", .num 30), ("prof", .str "Eng"), ("id", .str "d2")]] := by
  decide

/-- Witness for the amended Claim C8 at the concrete mixed-mode scenario
with offset 0 and limit 1. -/
theorem c8_find_window_witness :
    ([("age", JSPrim.num 30), ("prof", JSPrim.str "Eng"), ("id", JSPrim.str "d2")]
        ∈ findStructured c8Store "users" c8Sq ⟨some 1, 0, none⟩)
      ↔ ∃ id, id ∈ ((sortStrings (setList
            ((candidateIdsOf c8Store "users" c8Sq).getD
              (fullCollectionScan c8Store "users")))).drop 0).take 1
          ∧ readDoc c8Store "users" id
              = some [("age", JSPrim.num 30), ("prof", JSPrim.str "Eng"),
                  ("id", JSPrim.str "d2")]
          ∧ matchesStructured c8Sq
              [("age", JSPrim.num 30), ("prof", JSPrim.str "Eng"),
                ("id", JSPrim.str "d2")] = true :=
  c8_find_window_prefilter_characterization c8Store "users" c8Sq 0 1
    [("age", JSPrim.num 30), ("prof", JSPrim.str "Eng"), ("id", JSPrim.str "d2")]
    (by decide)
